import Mathlib

/-!
# Verification of the `incoder-kanban` board state engine

Shallow embedding of the board state engine of the `incoder-kanban`
repository: the entity store and move resolver of
`src/composables/useKanbanState.ts`, the drag state machine of
`src/composables/useKanbanDrag.ts`, the drop guard of
`src/components/KanbanColumn.vue`, and the event wiring of
`src/components/KanbanBoard.vue`.

Modelling conventions:
* Entity identifiers (`KanbanId = string | number` in the source) are
  modelled as `Nat`; JavaScript truthiness of an id is `≠ 0` (the number
  `0` is falsy in JS).
* Optional fields distinguish JavaScript `undefined` from `null`
  (the source compares them with `===`, under which they differ), via
  the three-valued `JOpt`.
* `order` fields are modelled as `Nat` (the code only ever assigns
  non-negative integers `0..n-1` to them, and the specified states are
  densely numbered); `wipLimit` is an `Int` since hosts may pass any
  number.
* Card payload fields the engine does not interpret (title, tags,
  priority, ...) are omitted: no modelled operation reads them.
* JavaScript in-place mutation of shared card objects inside `moveCard`
  is captured by two functions: `moveCard` computes the value of the
  array the function returns, and `moveCardPost` computes the post-call
  field values of the objects of the *input* array (which the source
  mutates through the shallow copy).
-/

/-- JavaScript optional value: distinguishes `undefined` from `null` from a
present value, since the source compares these with strict equality. -/
inductive JOpt (α : Type) where
  | undef : JOpt α
  | null : JOpt α
  | val : α → JOpt α
deriving DecidableEq, Repr

/-- JS truthiness of an optional id (`null`, `undefined` and the number `0`
are falsy). -/
def jTruthy : JOpt Nat → Bool
  | JOpt.val k => decide (k ≠ 0)
  | _ => false

/-- Extract the value of a `JOpt Nat`, defaulting to `0`; only used after a
truthiness check has established the value is present. -/
def jVal : JOpt Nat → Nat
  | JOpt.val k => k
  | _ => 0

/-- JS `x || null` on an optional id (used for `card.swimlaneId || null`). -/
def jOrNull (v : JOpt Nat) : JOpt Nat :=
  if jTruthy v then v else JOpt.null

/-- JS truthiness of an optional number (`!column.wipLimit` is true when the
limit is `undefined`, `null` or `0`). -/
def jIntTruthy : JOpt Int → Bool
  | JOpt.val n => decide (n ≠ 0)
  | _ => false

/-- Extract the value of a `JOpt Int`, defaulting to `0`. -/
def jIntVal : JOpt Int → Int
  | JOpt.val n => n
  | _ => 0

/-- A kanban card (`KanbanCard` of `src/types/kanban.ts`); uninterpreted
payload fields are omitted. -/
structure Card where
  id : Nat
  columnId : Nat
  swimlaneId : JOpt Nat
  order : Nat
  draggable : JOpt Bool
deriving DecidableEq, Repr

/-- A kanban column (`KanbanColumn` of `src/types/kanban.ts`); visual
fields are omitted. -/
structure Column where
  id : Nat
  order : Nat
  wipLimit : JOpt Int
  draggable : JOpt Bool
  acceptsCards : JOpt Bool
deriving DecidableEq, Repr

/-- A kanban swimlane (`KanbanSwimlane` of `src/types/kanban.ts`); visual
fields are omitted.  No operation of the engine ever writes this
collection — it is carried through unchanged. -/
structure Swimlane where
  id : Nat
  order : Nat
deriving DecidableEq, Repr

/-- `CardMoveEvent` of `src/types/kanban.ts`. At runtime the drag handlers
put `null` (not `undefined`) into `fromSwimlaneId`, hence `JOpt`. -/
structure CardMoveEvent where
  card : Card
  fromColumnId : Nat
  toColumnId : Nat
  fromIndex : Nat
  toIndex : Nat
  fromSwimlaneId : JOpt Nat
  toSwimlaneId : JOpt Nat
deriving DecidableEq, Repr

/-- `ColumnMoveEvent` of `src/types/kanban.ts`. -/
structure ColumnMoveEvent where
  column : Column
  fromIndex : Nat
  toIndex : Nat
deriving DecidableEq, Repr

/-! ## List helpers mirroring the JavaScript array operations -/

/-- JS `findIndex`: index of the first element satisfying `p`. -/
def findIndexD {α : Type} (p : α → Bool) : List α → Option Nat
  | [] => none
  | c :: cs => if p c then some 0 else (findIndexD p cs).map (fun n => n + 1)

/-- JS `find`: the first element satisfying `p`. -/
def findFirst {α : Type} (p : α → Bool) : List α → Option α
  | [] => none
  | c :: cs => if p c then some c else findFirst p cs

/-- JS `splice(i, 1)` at the index of the first element satisfying `p`:
removes that element. -/
def removeFirst {α : Type} (p : α → Bool) : List α → List α
  | [] => []
  | c :: cs => if p c then cs else c :: removeFirst p cs

/-- JS `splice(i, 0, a)` for `i ≥ 0`: inserts `a` at index `i`, clamped to
the length (`take`/`drop` saturate exactly like `splice`). -/
def splice {α : Type} (l : List α) (i : Nat) (a : α) : List α :=
  l.take i ++ a :: l.drop i

/-- The list `s, s+1, ..., s+n-1` (for the dense-order specification). -/
def rangeFrom : Nat → Nat → List Nat
  | _, 0 => []
  | s, n + 1 => s :: rangeFrom (s + 1) n

/-! ## Predicates used by the resolver's filters -/

/-- A group key: a `(columnId, swimlaneId)` pair. -/
abbrev GroupKey : Type := Nat × JOpt Nat

/-- The group of a card. -/
def cardGroup (c : Card) : GroupKey := (c.columnId, c.swimlaneId)

/-- Strict-equality group membership test, as in the source's filters
`c.columnId === X && c.swimlaneId === Y`. -/
def inGroup (g : GroupKey) (c : Card) : Bool :=
  decide (c.columnId = g.1 ∧ c.swimlaneId = g.2)

/-- `c.id === i`. -/
def idP (i : Nat) (c : Card) : Bool := decide (c.id = i)

/-- Source group key of a move event. -/
def fromKey (ev : CardMoveEvent) : GroupKey := (ev.fromColumnId, ev.fromSwimlaneId)

/-- Target group key of a move event. -/
def toKey (ev : CardMoveEvent) : GroupKey := (ev.toColumnId, ev.toSwimlaneId)

/-! ## The mutating renumber passes of `moveCard`

`moveCard` (useKanbanState.ts lines 93-140) runs two `forEach` passes that
assign `card.order = idx` *in place* on the objects shared with the input
array:

* the source pass renumbers, in array sequence, the cards matching the
  event's source group (`renumGroup`);
* the target pass renumbers the array `targetCards`, which consists of the
  shared target-group objects with the fresh `updatedCard` spliced in at
  `event.toIndex`; on a shared object at position `j` among the
  target-group cards this assigns `j` when `j` is left of the insertion
  point `min toIndex n` and `j + 1` otherwise (`targetMut` records this
  effect on the shared objects, `renumberFrom 0` gives the values of
  `targetCards` itself).
-/

/-- Renumber every element from `i` upward (`forEach((c, idx) => c.order = idx)`
started at counter `i`). -/
def renumberFrom : Nat → List Card → List Card
  | _, [] => []
  | i, c :: cs => { c with order := i } :: renumberFrom (i + 1) cs

/-- Renumber the elements satisfying `p` (counting only those), leaving the
others untouched: the in-place effect of
`cards.filter(p).forEach((c, idx) => c.order = idx)` on the array `cards`. -/
def renumGroup (p : Card → Bool) : Nat → List Card → List Card
  | _, [] => []
  | i, c :: cs =>
    if p c then { c with order := i } :: renumGroup p (i + 1) cs
    else c :: renumGroup p i cs

/-- The in-place effect of the target `forEach` on the objects shared with
the array: the `j`-th element satisfying `q` sits at position `j` of
`targetCards` if `j < insPos`, at `j + 1` otherwise, and its `order` is set
to that position. -/
def targetMut (q : Card → Bool) (insPos : Nat) : Nat → List Card → List Card
  | _, [] => []
  | j, c :: cs =>
    if q c then
      { c with order := if j < insPos then j else j + 1 } :: targetMut q insPos (j + 1) cs
    else c :: targetMut q insPos j cs

/-- The fresh object `{...cards[cardIndex], columnId, swimlaneId, order}` of
`moveCard` (its `order` is immediately overwritten by the target pass). -/
def movedUpdate (ev : CardMoveEvent) (orig : Card) : Card :=
  { orig with columnId := ev.toColumnId, swimlaneId := ev.toSwimlaneId, order := ev.toIndex }

/-- `moveCard` (useKanbanState.ts lines 93-140): the value of the array the
function returns.  Statement by statement:
`cards.findIndex` / early return (`findFirst`); removal of the moved card
(`removeFirst`); the source-group in-place renumbering (`renumGroup`);
`targetCards` = filter of the (source-renumbered) remaining cards by the
target group, with `updatedCard` spliced in at `toIndex` and renumbered;
`otherCards` = remaining cards in neither group; the returned array is
`[...otherCards, ...targetCards, ...cards.filter(source group)]`, where the
final filter sees the orders the two `forEach` passes wrote into the shared
objects (`targetMut` composed after `renumGroup`). -/
def moveCard (ev : CardMoveEvent) (cards : List Card) : List Card :=
  match findFirst (idP ev.card.id) cards with
  | none => cards
  | some orig =>
    let rest := removeFirst (idP ev.card.id) cards
    let rest1 := renumGroup (inGroup (fromKey ev)) 0 rest
    let tgt := rest1.filter (inGroup (toKey ev))
    let targetRe := renumberFrom 0 (splice tgt ev.toIndex (movedUpdate ev orig))
    let rest2 := targetMut (inGroup (toKey ev)) (min ev.toIndex tgt.length) 0 rest1
    let others := rest2.filter (fun c => !(inGroup (toKey ev) c) && !(inGroup (fromKey ev) c))
    others ++ targetRe ++ rest2.filter (inGroup (fromKey ev))

/-- The post-call field values of the objects of the *input* array of
`moveCard`: the function copies the array but shares the card objects, and
the two `forEach` passes assign `order` on them in place.  The moved card's
own object is never written (the update is a spread copy); every other
object receives the source-pass value if it matches the source group and
then the target-pass value if it matches the target group. -/
def moveCardPost (ev : CardMoveEvent) (cards : List Card) : List Card :=
  match findIndexD (idP ev.card.id) cards, findFirst (idP ev.card.id) cards with
  | some i, some orig =>
    let rest := removeFirst (idP ev.card.id) cards
    let rest1 := renumGroup (inGroup (fromKey ev)) 0 rest
    let tgt := rest1.filter (inGroup (toKey ev))
    let rest2 := targetMut (inGroup (toKey ev)) (min ev.toIndex tgt.length) 0 rest1
    splice rest2 i orig
  | _, _ => cards

/-- `c.id === i` for columns. -/
def colIdP (i : Nat) (c : Column) : Bool := decide (c.id = i)

/-- Renumber columns from `i` upward, building fresh objects
(`columns.map((col, idx) => ({...col, order: idx}))`). -/
def renumColsFrom : Nat → List Column → List Column
  | _, [] => []
  | i, c :: cs => { c with order := i } :: renumColsFrom (i + 1) cs

/-- `moveColumn` (useKanbanState.ts lines 145-162): find the column by id
(early return on `-1`), splice it out, splice it back in at `toIndex`, and
map every column to a fresh object with `order` set to its new position. -/
def moveColumn (ev : ColumnMoveEvent) (cols : List Column) : List Column :=
  match findFirst (colIdP ev.column.id) cols with
  | none => cols
  | some moved =>
    renumColsFrom 0 (splice (removeFirst (colIdP ev.column.id) cols) ev.toIndex moved)

/-! ## Entity store projections -/

/-- The comparator `(a, b) => a.order - b.order`. -/
def cardLE (a b : Card) : Prop := a.order ≤ b.order

instance : DecidableRel cardLE := fun a b => Nat.decLe a.order b.order

instance : IsTotal Card cardLE := ⟨fun a b => Nat.le_total a.order b.order⟩

instance : IsTrans Card cardLE := ⟨fun _ _ _ h h' => Nat.le_trans h h'⟩

/-- `getCardsForColumn` (useKanbanState.ts lines 39-49): filter by column
id, and by swimlane id only when a swimlane id was given (`undefined`
skips the swimlane check entirely), then sort ascending by `order`. -/
def getCardsForColumn (columnId : Nat) (swimlaneId : JOpt Nat) (cards : List Card) : List Card :=
  List.insertionSort cardLE (cards.filter (fun c =>
    decide (c.columnId = columnId) &&
      (if swimlaneId = JOpt.undef then true else decide (c.swimlaneId = swimlaneId))))

/-- `getCardCount` (useKanbanState.ts lines 54-56). -/
def getCardCount (columnId : Nat) (swimlaneId : JOpt Nat) (cards : List Card) : Nat :=
  (getCardsForColumn columnId swimlaneId cards).length

/-- `isColumnOverLimit` (useKanbanState.ts lines 61-67): `false` when the
column is not found or `!column.wipLimit` (so also when the limit is `0`),
otherwise whether the cards of the column (`getCardCount(columnId)`, with
the swimlane argument omitted, i.e. `undefined`) strictly exceed the
limit. -/
def isColumnOverLimit (columnId : Nat) (cols : List Column) (cards : List Card) : Bool :=
  match findFirst (colIdP columnId) cols with
  | none => false
  | some col =>
    if !(jIntTruthy col.wipLimit) then false
    else decide ((getCardCount columnId JOpt.undef cards : Int) > jIntVal col.wipLimit)

/-! ## Drag state machine (`useKanbanDrag.ts`) and board wiring

The drag composable holds a single `dragState` record; the board component
(`KanbanBoard.vue`) wires its callbacks so that `onCardMoved` runs the
resolver and emits `update:cards`, `card-moved` and `board-change`, and
`onDragStart` / `onDragEnd` emit `drag-start` / `drag-end`.  The column
component (`KanbanColumn.vue`) guards its drop zone: when
`acceptsCards === false` the drop (and drag-over) is swallowed before the
composable ever sees it.  DOM-only effects (CSS classes, `dataTransfer`,
`preventDefault`) are not modelled; emitted events are collected in an
ordered log. -/

/-- The two drag subject kinds. -/
inductive DragKind where
  | card : DragKind
  | column : DragKind
deriving DecidableEq, Repr

/-- `DragState` of `src/types/kanban.ts` (all fields initialised to
`null`). -/
structure DragState where
  isDragging : Bool
  dragType : JOpt DragKind
  draggedId : JOpt Nat
  sourceColumnId : JOpt Nat
  sourceSwimlaneId : JOpt Nat
  dropColumnId : JOpt Nat
  dropSwimlaneId : JOpt Nat
deriving DecidableEq, Repr

/-- The initial / reset drag state (`resetDragState`). -/
def idleDrag : DragState :=
  ⟨false, JOpt.null, JOpt.null, JOpt.null, JOpt.null, JOpt.null, JOpt.null⟩

/-- Extract the kind stored in `dragType` (only used when it is present). -/
def jKind : JOpt DragKind → DragKind
  | JOpt.val k => k
  | _ => DragKind.card

/-- Board options consumed by the drag layer (`KanbanBoard.vue` passes
`enableDragDrop !== false` and `enableColumnDrag !== false` down as refs,
and the composable checks `?.value !== false` again; the composition is
`≠ some false` of the raw option). -/
structure Config where
  enableDragDrop : Option Bool
  enableColumnDrag : Option Bool
deriving DecidableEq, Repr

/-- `isDragEnabled` (useKanbanDrag.ts lines 290-292). -/
def isDragEnabled (cfg : Config) : Bool := decide (cfg.enableDragDrop ≠ some false)

/-- `isColumnDragEnabled` (useKanbanDrag.ts lines 294-296). -/
def isColumnDragEnabled (cfg : Config) : Bool := decide (cfg.enableColumnDrag ≠ some false)

/-- One entry of the board's emitted-event log (`KanbanBoard.vue` emits). -/
inductive Emitted where
  | dragStart : DragKind → Nat → Emitted
  | dragEnd : DragKind → Nat → Bool → Emitted
  | updateCards : List Card → Emitted
  | cardMoved : CardMoveEvent → Emitted
  | boardChange : List Card → List Column → Emitted
deriving DecidableEq, Repr

/-- The whole modelled board: entity collections, drag state, event log. -/
structure BoardState where
  cards : List Card
  columns : List Column
  swimlanes : List Swimlane
  drag : DragState
  events : List Emitted
deriving DecidableEq, Repr

/-- `resetDragState` (useKanbanDrag.ts lines 540-550). -/
def resetDrag (s : BoardState) : BoardState := { s with drag := idleDrag }

/-- `startCardDrag` (useKanbanDrag.ts lines 301-341): rejected only when
dragging is disabled or the card is individually marked non-draggable;
otherwise the drag state is *assigned wholesale* (there is no check that a
gesture is already active) and `drag-start` is emitted.
`sourceSwimlaneId` is `card.swimlaneId || null`. -/
def startCardDrag (cfg : Config) (card : Card) (s : BoardState) : BoardState :=
  if !(isDragEnabled cfg) || decide (card.draggable = JOpt.val false) then s
  else
    { s with
      drag := ⟨true, JOpt.val DragKind.card, JOpt.val card.id, JOpt.val card.columnId,
               jOrNull card.swimlaneId, JOpt.null, JOpt.null⟩,
      events := s.events ++ [Emitted.dragStart DragKind.card card.id] }

/-- `startColumnDrag` (useKanbanDrag.ts lines 346-380): same shape as
`startCardDrag`, gated by `isColumnDragEnabled`, with no source group. -/
def startColumnDrag (cfg : Config) (col : Column) (s : BoardState) : BoardState :=
  if !(isColumnDragEnabled cfg) || decide (col.draggable = JOpt.val false) then s
  else
    { s with
      drag := ⟨true, JOpt.val DragKind.column, JOpt.val col.id, JOpt.null,
               JOpt.null, JOpt.null, JOpt.null⟩,
      events := s.events ++ [Emitted.dragStart DragKind.column col.id] }

/-- `handleDragOver` (useKanbanDrag.ts lines 385-411): when a drag is
active, records the hovered drop target (`swimlaneId || null`); the most
recent call wins.  Visual feedback is not modelled. -/
def handleDragOver (cfg : Config) (columnId : Nat) (swimlaneId : JOpt Nat)
    (s : BoardState) : BoardState :=
  if !(isDragEnabled cfg) || !s.drag.isDragging then s
  else
    { s with drag :=
        { s.drag with dropColumnId := JOpt.val columnId, dropSwimlaneId := jOrNull swimlaneId } }

/-- The drag-over guard of `KanbanColumn.vue` (lines 104-110): a column
with `acceptsCards === false` never forwards the hover to the composable. -/
def hoverColumn (cfg : Config) (col : Column) (swimlaneId : JOpt Nat)
    (s : BoardState) : BoardState :=
  if decide (col.acceptsCards = JOpt.val false) then s
  else handleDragOver cfg col.id swimlaneId s

/-- `handleDrop` of the composable (useKanbanDrag.ts lines 432-511)
composed with the board's `onCardMoved` wiring (KanbanBoard.vue lines
83-92): early resets when dragging is disabled, the drag is not a card
drag, `draggedId` is falsy, the dragged card is no longer found, or
`sourceColumnId` is falsy — all of these emit *nothing*.  Otherwise
`toIndex` defaults to the length of the hovered column's card projection
and is replaced by the card's position in it only when the drop target
compares strictly equal to the recorded source (`columnId === fromColumnId
&& swimlaneId === fromSwimlaneId`); if the position changed,
`onCardMoved` runs the resolver and the board emits `update:cards`,
`card-moved` and `board-change`; then `drag-end {success: true}` is
emitted and the state is reset.  (The board's `update:cards` round-trips
through the host's `v-model`; the model folds the new collection into the
state immediately, which is the intended synchronous host behaviour.) -/
def handleDrop (cfg : Config) (columnId : Nat) (swimlaneId : JOpt Nat)
    (s : BoardState) : BoardState :=
  if !(isDragEnabled cfg) || !(decide (s.drag.dragType = JOpt.val DragKind.card)) then resetDrag s
  else if !(jTruthy s.drag.draggedId) then resetDrag s
  else
    let draggedId := jVal s.drag.draggedId
    match findFirst (idP draggedId) s.cards with
    | none => resetDrag s
    | some card =>
      if !(jTruthy s.drag.sourceColumnId) then resetDrag s
      else
        let fromColumnId := jVal s.drag.sourceColumnId
        let fromSwimlaneId := s.drag.sourceSwimlaneId
        let cardsInColumn := getCardsForColumn columnId swimlaneId s.cards
        let toIndex :=
          if decide (columnId = fromColumnId) && decide (swimlaneId = fromSwimlaneId) then
            match findIndexD (idP draggedId) cardsInColumn with
            | some fromIndex => fromIndex
            | none => cardsInColumn.length
          else cardsInColumn.length
        let actuallyMoved :=
          !(decide (columnId = fromColumnId)) || !(decide (swimlaneId = fromSwimlaneId)) ||
            !(decide (toIndex = card.order))
        let s1 :=
          if actuallyMoved then
            let ev : CardMoveEvent :=
              ⟨card, fromColumnId, columnId, card.order, toIndex, fromSwimlaneId, swimlaneId⟩
            let newCards := moveCard ev s.cards
            { s with cards := newCards,
                     events := s.events ++
                       [Emitted.updateCards newCards, Emitted.cardMoved ev,
                        Emitted.boardChange newCards s.columns] }
          else s
        resetDrag
          { s1 with events := s1.events ++ [Emitted.dragEnd DragKind.card draggedId true] }

/-- The drop guard of `KanbanColumn.vue` (lines 122-125): a column with
`acceptsCards === false` swallows the drop before the composable runs. -/
def dropOnColumn (cfg : Config) (col : Column) (swimlaneId : JOpt Nat)
    (s : BoardState) : BoardState :=
  if decide (col.acceptsCards = JOpt.val false) then s
  else handleDrop cfg col.id swimlaneId s

/-- `handleDragEnd` (useKanbanDrag.ts lines 516-535), reached through the
native `dragend` event on the drag source: emits
`drag-end {success: false}` only when a dragged subject is still recorded
(`draggedId && dragType` truthy), then resets. -/
def handleDragEnd (s : BoardState) : BoardState :=
  let s1 :=
    if jTruthy s.drag.draggedId && !(decide (s.drag.dragType = JOpt.null)) then
      { s with events :=
          s.events ++ [Emitted.dragEnd (jKind s.drag.dragType) (jVal s.drag.draggedId) false] }
    else s
  resetDrag s1

/-- The `card-moved` entries of an event log. -/
def moveEventsOf : List Emitted → List CardMoveEvent
  | [] => []
  | Emitted.cardMoved ev :: es => ev :: moveEventsOf es
  | _ :: es => moveEventsOf es

/-- The `board-change` entries of an event log. -/
def boardChangeCount : List Emitted → Nat
  | [] => 0
  | Emitted.boardChange _ _ :: es => boardChangeCount es + 1
  | _ :: es => boardChangeCount es

/-- The `drag-end` entries of an event log (subject id and success flag). -/
def dragEndsOf : List Emitted → List (Nat × Bool)
  | [] => []
  | Emitted.dragEnd _ i b :: es => (i, b) :: dragEndsOf es
  | _ :: es => dragEndsOf es

/-! ## Sequences of moves and the density invariant -/

/-- One resolver call: a card move or a column move. -/
inductive BoardOp where
  | cardMove : CardMoveEvent → BoardOp
  | colMove : ColumnMoveEvent → BoardOp
deriving DecidableEq, Repr

/-- Apply one resolver call to the collections (card moves replace the card
collection, column moves the column collection). -/
def applyOp : BoardOp → List Card × List Column → List Card × List Column
  | BoardOp.cardMove ev, st => (moveCard ev st.1, st.2)
  | BoardOp.colMove ev, st => (st.1, moveColumn ev st.2)

/-- Apply a sequence of resolver calls left to right. -/
def applyOps : List BoardOp → List Card × List Column → List Card × List Column
  | [], st => st
  | op :: ops, st => applyOps ops (applyOp op st)

/-- A card-move event is well formed for a collection when either its
subject id is absent (the call is a defensive no-op) or the first card
with that id actually carries the event's source group, and the source
group differs from the target group.  The drop pipeline produces events of
this shape for swimlane-faithful gestures; `moveCard` violates the density
and set-preservation invariants outside this class. -/
def wfCardEv (ev : CardMoveEvent) (cards : List Card) : Bool :=
  match findFirst (idP ev.card.id) cards with
  | none => true
  | some orig =>
    decide (orig.columnId = ev.fromColumnId) && decide (orig.swimlaneId = ev.fromSwimlaneId) &&
      !(decide (fromKey ev = toKey ev))

/-- Well-formedness of a whole sequence, each event judged against the
collections at its point of execution (column moves are unrestricted). -/
def wfOps : List BoardOp → List Card × List Column → Bool
  | [], _ => true
  | op :: ops, st =>
    (match op with
     | BoardOp.cardMove ev => wfCardEv ev st.1
     | BoardOp.colMove _ => true) && wfOps ops (applyOp op st)

/-- A card move whose source group key differs from its target group key
(the weaker, state-independent condition under which `moveCard` preserves
the id multiset). -/
def opCrossGroup : BoardOp → Bool
  | BoardOp.cardMove ev => !(decide (fromKey ev = toKey ev))
  | BoardOp.colMove _ => true

/-- The cards of a given group, in collection sequence. -/
def groupCards (g : GroupKey) (l : List Card) : List Card := l.filter (inGroup g)

/-- The density invariant of the specification: in every group represented
in the collection, the `order` values are exactly `{0, ..., n-1}` (a group
not represented is empty and trivially dense). -/
def DenseOrders (l : List Card) : Prop :=
  ∀ g ∈ l.map cardGroup,
    ((groupCards g l).map (fun c => c.order)).Perm (rangeFrom 0 (groupCards g l).length)

instance (l : List Card) : Decidable (DenseOrders l) := by
  unfold DenseOrders; infer_instance

/-- The id multiset of a card collection (as a list, up to permutation). -/
def cardIds (l : List Card) : List Nat := l.map (fun c => c.id)

/-- The id multiset of a column collection. -/
def columnIds (l : List Column) : List Nat := l.map (fun c => c.id)

/-- A sequence of pointer hovers during a gesture, each over a column's
drop zone (the column and the swimlane parameter the template passes). -/
def runHovers (cfg : Config) : List (Column × JOpt Nat) → BoardState → BoardState
  | [], s => s
  | h :: hs, s => runHovers cfg hs (hoverColumn cfg h.1 h.2 s)

/-! ## Concrete boards used in the claim-level theorems -/

/-- Default configuration: no option set (all drags enabled). -/
def cfgDefault : Config := ⟨none, none⟩

/-- Column `A` of the specification's concrete scenario. -/
def specColA : Column := ⟨1, 0, JOpt.undef, JOpt.undef, JOpt.undef⟩

/-- Column `B` of the specification's concrete scenario. -/
def specColB : Column := ⟨2, 1, JOpt.undef, JOpt.undef, JOpt.undef⟩

/-- Card `c1(A, 0)` of the specification's concrete scenario. -/
def specC1 : Card := ⟨11, 1, JOpt.undef, 0, JOpt.undef⟩

/-- Card `c2(A, 1)` of the specification's concrete scenario. -/
def specC2 : Card := ⟨12, 1, JOpt.undef, 1, JOpt.undef⟩

/-- Card `c3(B, 0)` of the specification's concrete scenario. -/
def specC3 : Card := ⟨13, 2, JOpt.undef, 0, JOpt.undef⟩

/-- The spec scenario's card collection. -/
def specCards : List Card := [specC1, specC2, specC3]

/-! ## Claim theorems -/

/-- C1, counterexample.  The claim quantifies over *every* sequence of
`moveCard` calls and highlights the case "a single `moveCard` whose source
group equals its target group".  First conjunct pair: on the dense
two-card collection `[a(col 1, order 0), b(col 1, order 1)]`, the
same-group call moving `b` to index 0 of its own group breaks density:
the rebuilt array appends the source-group cards twice (`targetCards` and
the final `cards.filter(source)` both contain them), so the group's order
multiset becomes `{0, 1, 1}`.  Second conjunct pair: a call whose `from`
fields do not name the moved card's actual group also breaks density
(nothing renumbers the group the card actually left, leaving the order
multiset `{1}`), which forces the amendment's well-formedness
condition. -/
theorem c1_counterexample :
    (DenseOrders [⟨1, 1, JOpt.undef, 0, JOpt.undef⟩, ⟨2, 1, JOpt.undef, 1, JOpt.undef⟩] ∧
      ¬ DenseOrders
        (moveCard ⟨⟨2, 1, JOpt.undef, 1, JOpt.undef⟩, 1, 1, 1, 0, JOpt.undef, JOpt.undef⟩
          [⟨1, 1, JOpt.undef, 0, JOpt.undef⟩, ⟨2, 1, JOpt.undef, 1, JOpt.undef⟩])) ∧
    (DenseOrders [⟨2, 1, JOpt.undef, 0, JOpt.undef⟩, ⟨1, 1, JOpt.undef, 1, JOpt.undef⟩] ∧
      ¬ DenseOrders
        (moveCard ⟨⟨2, 1, JOpt.undef, 0, JOpt.undef⟩, 5, 3, 0, 0, JOpt.undef, JOpt.undef⟩
          [⟨2, 1, JOpt.undef, 0, JOpt.undef⟩, ⟨1, 1, JOpt.undef, 1, JOpt.undef⟩])) := by
  refine ⟨⟨?_, ?_⟩, ?_, ?_⟩
  · decide
  · decide
  · decide
  · decide

/-- C3, counterexample.  The same same-group `moveCard` call duplicates a
card id: the input ids are `{1, 2}`, but id `1` occurs twice in the
output, so the id multiset is not preserved. -/
theorem c3_counterexample :
    (cardIds [⟨1, 1, JOpt.undef, 0, JOpt.undef⟩, ⟨2, 1, JOpt.undef, 1, JOpt.undef⟩] = [1, 2]) ∧
    (cardIds
      (moveCard ⟨⟨2, 1, JOpt.undef, 1, JOpt.undef⟩, 1, 1, 1, 0, JOpt.undef, JOpt.undef⟩
        [⟨1, 1, JOpt.undef, 0, JOpt.undef⟩, ⟨2, 1, JOpt.undef, 1, JOpt.undef⟩]) = [2, 1, 1]) := by
  constructor
  · decide
  · decide

/-- C2, counterexample.  Running the scenario through the actual drop
pipeline (`startCardDrag` on `c1`, then a committed drop on column `B`)
does *not* produce the claimed outcome: the emitted move event carries
`toIndex = 1` (the drop handler always appends), not `0`, and the
resulting collection leaves `c2` at order `1` (the source-group
renumbering filter compares the cards' `undefined` swimlane against the
recorded `null` and matches nothing), instead of the claimed
`c2(A, 0)`. -/
theorem c2_counterexample :
    (moveEventsOf
        (handleDrop cfgDefault 2 JOpt.undef
          (startCardDrag cfgDefault specC1 ⟨specCards, [specColA, specColB], [], idleDrag, []⟩)).events).map
        (fun ev => ev.toIndex) = [1] ∧
    (handleDrop cfgDefault 2 JOpt.undef
        (startCardDrag cfgDefault specC1 ⟨specCards, [specColA, specColB], [], idleDrag, []⟩)).cards =
      [⟨12, 1, JOpt.undef, 1, JOpt.undef⟩, ⟨13, 2, JOpt.undef, 0, JOpt.undef⟩,
       ⟨11, 2, JOpt.undef, 1, JOpt.undef⟩] := by
  constructor
  · decide
  · decide

/-- C2, amended: calling `moveCard` directly with the scenario's event
(`c1`, from `A`, to `B`, index `0`, both swimlane fields `undefined`)
yields exactly the claimed collection `c1(B,0), c3(B,1), c2(A,0)`; the
drop pipeline instead emits `move{c1, from A/0, to B/1}` (it always
appends) and yields `c1(B,1), c3(B,0), c2(A,1)`. -/
theorem c2_amended :
    moveCard ⟨specC1, 1, 2, 0, 0, JOpt.undef, JOpt.undef⟩ specCards =
      [⟨11, 2, JOpt.undef, 0, JOpt.undef⟩, ⟨13, 2, JOpt.undef, 1, JOpt.undef⟩,
       ⟨12, 1, JOpt.undef, 0, JOpt.undef⟩] ∧
    moveEventsOf
        (handleDrop cfgDefault 2 JOpt.undef
          (startCardDrag cfgDefault specC1 ⟨specCards, [specColA, specColB], [], idleDrag, []⟩)).events =
      [⟨specC1, 1, 2, 0, 1, JOpt.null, JOpt.undef⟩] := by
  constructor
  · decide
  · decide

/-- C4, counterexample.  Board `[k1(col 1, order 0), k2(col 1, order 1)]`,
both cards without a swimlane.  Dropping `k1` on its own column at its own
position (the gesture: `startCardDrag k1`, then a drop on column 1 with no
swimlane) is, per the claim, a no-op that emits nothing.  In the code,
`sourceSwimlaneId` is recorded as `null` while the drop target's swimlane
is `undefined`; the strict comparison fails, the drop is treated as
cross-group with `toIndex = 2`, a `card-moved` and a `board-change` event
are emitted, and the two cards' orders are swapped. -/
theorem c4_counterexample :
    (handleDrop cfgDefault 1 JOpt.undef
        (startCardDrag cfgDefault (⟨1, 1, JOpt.undef, 0, JOpt.undef⟩ : Card)
          ⟨[⟨1, 1, JOpt.undef, 0, JOpt.undef⟩, ⟨2, 1, JOpt.undef, 1, JOpt.undef⟩], [], [],
            idleDrag, []⟩)).cards =
      [⟨2, 1, JOpt.undef, 0, JOpt.undef⟩, ⟨1, 1, JOpt.undef, 1, JOpt.undef⟩] ∧
    (moveEventsOf
        (handleDrop cfgDefault 1 JOpt.undef
          (startCardDrag cfgDefault (⟨1, 1, JOpt.undef, 0, JOpt.undef⟩ : Card)
            ⟨[⟨1, 1, JOpt.undef, 0, JOpt.undef⟩, ⟨2, 1, JOpt.undef, 1, JOpt.undef⟩], [], [],
              idleDrag, []⟩)).events).length = 1 := by
  constructor
  · decide
  · decide

/-- C5, counterexample.  A drop committed while the drag state references a
card id (`99`) that is no longer in the collection: the drop handler
resets the drag state and returns *before* any event is emitted, and the
subsequent native `dragend` handler finds the state already cleared, so no
`drag-end` event (with any success flag) is ever emitted — the claim's
`drag-end {success: true}` does not fire.  The collections are left
unchanged. -/
theorem c5_counterexample :
    (handleDragEnd
        (handleDrop cfgDefault 1 JOpt.undef
          ⟨[⟨1, 1, JOpt.undef, 0, JOpt.undef⟩], [], [],
            ⟨true, JOpt.val DragKind.card, JOpt.val 99, JOpt.val 1, JOpt.null,
              JOpt.null, JOpt.null⟩, []⟩)).events = [] ∧
    (handleDragEnd
        (handleDrop cfgDefault 1 JOpt.undef
          ⟨[⟨1, 1, JOpt.undef, 0, JOpt.undef⟩], [], [],
            ⟨true, JOpt.val DragKind.card, JOpt.val 99, JOpt.val 1, JOpt.null,
              JOpt.null, JOpt.null⟩, []⟩)).cards =
      [⟨1, 1, JOpt.undef, 0, JOpt.undef⟩] := by
  constructor
  · decide
  · decide

/-- C7, counterexample.  A column whose `wipLimit` is set to `0` with one
card in it: the claim ("its `wipLimit` field is set (including the value
0), and the card count strictly exceeds that limit") requires
`isColumnOverLimit` to return `true` (1 > 0), but the code's
`!column.wipLimit` treats the falsy `0` as "no limit" and returns
`false`. -/
theorem c7_counterexample :
    (findFirst (colIdP 1) [(⟨1, 0, JOpt.val 0, JOpt.undef, JOpt.undef⟩ : Column)] =
        some ⟨1, 0, JOpt.val 0, JOpt.undef, JOpt.undef⟩) ∧
    getCardCount 1 JOpt.undef [⟨5, 1, JOpt.undef, 0, JOpt.undef⟩] = 1 ∧
    isColumnOverLimit 1 [⟨1, 0, JOpt.val 0, JOpt.undef, JOpt.undef⟩]
        [⟨5, 1, JOpt.undef, 0, JOpt.undef⟩] = false := by
  refine ⟨by decide, by decide, by decide⟩

/-- C8, counterexample.  With a card gesture already active (dragging card
id 1, `isDragging = true`), a second `startCardDrag` on card id 5 is *not*
rejected: it overwrites the drag state, which afterwards references the
new subject. -/
theorem c8_counterexample :
    (startCardDrag cfgDefault (⟨1, 1, JOpt.undef, 0, JOpt.undef⟩ : Card)
        ⟨[], [], [], idleDrag, []⟩).drag.isDragging = true ∧
    (startCardDrag cfgDefault (⟨5, 2, JOpt.undef, 0, JOpt.undef⟩ : Card)
          (startCardDrag cfgDefault (⟨1, 1, JOpt.undef, 0, JOpt.undef⟩ : Card)
            ⟨[], [], [], idleDrag, []⟩)).drag.draggedId = JOpt.val 5 := by
  constructor
  · decide
  · decide

/-- C9, counterexample.  `moveCard` on
`[a(col 1, order 0), b(col 1, order 1)]`, moving `a` to column 2: the
source-group `forEach` assigns `order = 0` to the *input* object `b`
through the shared reference, so after the call the input array's objects
no longer carry their prior field values (`b.order` changed from 1 to
0). -/
theorem c9_counterexample :
    moveCardPost ⟨⟨1, 1, JOpt.undef, 0, JOpt.undef⟩, 1, 2, 0, 0, JOpt.undef, JOpt.undef⟩
        [⟨1, 1, JOpt.undef, 0, JOpt.undef⟩, ⟨2, 1, JOpt.undef, 1, JOpt.undef⟩] =
      [⟨1, 1, JOpt.undef, 0, JOpt.undef⟩, ⟨2, 1, JOpt.undef, 0, JOpt.undef⟩] := by
  decide

/-- C10, counterexample.  Column 2 holds `x(swimlane 5)` and `y(no
swimlane)`; card `d` is dragged from column 1 and dropped on column 2 with
no swimlane.  The committed move's target group `(2, undefined)` holds a
single card (`y`), but the emitted event's `toIndex` is `2`: the handler
takes the length of `getCardsForColumn(2, undefined)`, which skips the
swimlane filter entirely and counts the whole column. -/
theorem c10_counterexample :
    (groupCards (2, JOpt.undef)
        [⟨1, 2, JOpt.val 5, 0, JOpt.undef⟩, ⟨2, 2, JOpt.undef, 0, JOpt.undef⟩,
         ⟨3, 1, JOpt.undef, 0, JOpt.undef⟩]).length = 1 ∧
    (moveEventsOf
        (handleDrop cfgDefault 2 JOpt.undef
          (startCardDrag cfgDefault (⟨3, 1, JOpt.undef, 0, JOpt.undef⟩ : Card)
            ⟨[⟨1, 2, JOpt.val 5, 0, JOpt.undef⟩, ⟨2, 2, JOpt.undef, 0, JOpt.undef⟩,
              ⟨3, 1, JOpt.undef, 0, JOpt.undef⟩], [], [], idleDrag, []⟩)).events).map
        (fun ev => ev.toIndex) = [2] := by
  constructor
  · decide
  · decide

/-- C7, amended: `isColumnOverLimit(columnId)` returns `true` iff the
column exists (first id match), its `wipLimit` is a present *non-zero*
number, and the count of cards whose `columnId` matches strictly exceeds
it (the value `0`, being falsy, is treated as "no limit"). -/
theorem c7_amended (columnId : Nat) (cols : List Column) (cards : List Card) :
    isColumnOverLimit columnId cols cards = true ↔
      ∃ col, findFirst (colIdP columnId) cols = some col ∧
        ∃ w : Int, col.wipLimit = JOpt.val w ∧ w ≠ 0 ∧
          (getCardCount columnId JOpt.undef cards : Int) > w := by
  unfold isColumnOverLimit
  cases h : findFirst (colIdP columnId) cols with
  | none =>
    constructor
    · intro hfalse
      exact absurd hfalse (by simp)
    · rintro ⟨col, hcol, -⟩
      exact absurd hcol (by simp)
  | some col =>
    constructor
    · intro htrue
      dsimp only at htrue
      by_cases ht : jIntTruthy col.wipLimit = true
      · rw [ht] at htrue
        simp only [Bool.not_true, Bool.false_eq_true, if_false] at htrue
        cases hw : col.wipLimit with
        | undef => rw [hw] at ht; exact absurd ht (by simp [jIntTruthy])
        | null => rw [hw] at ht; exact absurd ht (by simp [jIntTruthy])
        | val n =>
          rw [hw] at ht htrue
          refine ⟨col, rfl, n, hw, ?_, ?_⟩
          · exact of_decide_eq_true ht
          · simpa [jIntVal] using of_decide_eq_true htrue
      · rw [Bool.not_eq_true] at ht
        rw [ht] at htrue
        simp at htrue
    · rintro ⟨col', hcol', w, hwl, hw0, hgt⟩
      cases hcol'
      dsimp only
      have ht : jIntTruthy col.wipLimit = true := by
        rw [hwl]; simpa [jIntTruthy] using hw0
      rw [ht]
      simp only [Bool.not_true, Bool.false_eq_true, if_false]
      rw [hwl]
      simpa [jIntVal] using hgt

/-! ## Helper lemmas on the drag pipeline -/

/-- Any hover sequence only rewrites the recorded drop target fields of the
drag state; everything else in the board state is untouched. -/
theorem runHovers_shape (cfg : Config) (hs : List (Column × JOpt Nat)) :
    ∀ s : BoardState, ∃ dropCol dropSw, runHovers cfg hs s =
      { s with drag := { s.drag with dropColumnId := dropCol, dropSwimlaneId := dropSw } } := by
  induction hs with
  | nil =>
    intro s
    exact ⟨s.drag.dropColumnId, s.drag.dropSwimlaneId, rfl⟩
  | cons h t ih =>
    intro s
    show ∃ dropCol dropSw, runHovers cfg t (hoverColumn cfg h.1 h.2 s) = _
    unfold hoverColumn handleDragOver
    split
    · exact ih s
    · split
      · exact ih s
      · obtain ⟨dropCol, dropSw, hrw⟩ := ih
          { s with drag := { s.drag with dropColumnId := JOpt.val h.1.id, dropSwimlaneId := jOrNull h.2 } }
        exact ⟨dropCol, dropSw, hrw⟩

/-- The drop handler never reads the recorded drop target (the drop zone's
own parameters are passed explicitly), so those two fields are irrelevant
to its result. -/
theorem handleDrop_ignores_dropTarget (cfg : Config) (cid : Nat) (sw dropCol dropSw : JOpt Nat)
    (s : BoardState) :
    handleDrop cfg cid sw
        { s with drag := { s.drag with dropColumnId := dropCol, dropSwimlaneId := dropSw } } =
      handleDrop cfg cid sw s := by
  cases s with
  | mk cs cols sls dr evs =>
    cases dr
    unfold handleDrop resetDrag
    simp only [apply_ite BoardState.cards, apply_ite BoardState.columns,
      apply_ite BoardState.swimlanes, apply_ite BoardState.events]

/-- The drag-end handler never reads the recorded drop target either. -/
theorem handleDragEnd_ignores_dropTarget (dropCol dropSw : JOpt Nat) (s : BoardState) :
    handleDragEnd
        { s with drag := { s.drag with dropColumnId := dropCol, dropSwimlaneId := dropSw } } =
      handleDragEnd s := by
  cases s with
  | mk cs cols sls dr evs =>
    cases dr
    unfold handleDragEnd resetDrag
    simp only [apply_ite BoardState.cards, apply_ite BoardState.columns,
      apply_ite BoardState.swimlanes, apply_ite BoardState.events]

/-- A card drag that passes the gates assigns the drag state wholesale. -/
theorem startCardDrag_active (cfg : Config) (card : Card) (s : BoardState)
    (hen : isDragEnabled cfg = true) (hdr : card.draggable ≠ JOpt.val false) :
    startCardDrag cfg card s =
      { s with drag := ⟨true, JOpt.val DragKind.card, JOpt.val card.id, JOpt.val card.columnId,
                        jOrNull card.swimlaneId, JOpt.null, JOpt.null⟩,
               events := s.events ++ [Emitted.dragStart DragKind.card card.id] } := by
  have hcond : (!(isDragEnabled cfg) || decide (card.draggable = JOpt.val false)) = false := by
    simp [hen, hdr]
  unfold startCardDrag
  rw [hcond]
  simp

/-- A column drag that passes the gates assigns the drag state wholesale. -/
theorem startColumnDrag_active (cfg : Config) (col : Column) (s : BoardState)
    (hen : isColumnDragEnabled cfg = true) (hdr : col.draggable ≠ JOpt.val false) :
    startColumnDrag cfg col s =
      { s with drag := ⟨true, JOpt.val DragKind.column, JOpt.val col.id, JOpt.null,
                        JOpt.null, JOpt.null, JOpt.null⟩,
               events := s.events ++ [Emitted.dragStart DragKind.column col.id] } := by
  have hcond : (!(isColumnDragEnabled cfg) || decide (col.draggable = JOpt.val false)) = false := by
    simp [hen, hdr]
  unfold startColumnDrag
  rw [hcond]
  simp

/-- C6, counterexample.  The claim quantifies over every drag gesture,
but for a card whose id is the (falsy) number `0`, the gesture on a
rejecting column emits *no* `drag-end` at all: the collections are indeed
untouched, but the native drag-end handler's `if (draggedId && dragType)`
sees the falsy id and skips the emission, so the claimed
`drag-end {success: false}` never fires. -/
theorem c6_counterexample :
    (handleDragEnd (dropOnColumn cfgDefault ⟨2, 1, JOpt.undef, JOpt.undef, JOpt.val false⟩
        JOpt.undef
        (startCardDrag cfgDefault (⟨0, 1, JOpt.undef, 0, JOpt.undef⟩ : Card)
          ⟨[⟨0, 1, JOpt.undef, 0, JOpt.undef⟩], [⟨2, 1, JOpt.undef, JOpt.undef, JOpt.val false⟩],
            [], idleDrag, []⟩))).events = [Emitted.dragStart DragKind.card 0] := by
  decide

/-- C6, amended: dropping on a column whose `acceptsCards` is `false`.
For every board, every permitted card-drag gesture with a *truthy* subject
id (drag enabled, card draggable, id not the falsy `0`), every hover
sequence, and a drop on the rejecting column followed by the native
drag-end: the card, column and swimlane collections are left unchanged
(the resolver is never consulted — no `update:cards`, `card-moved` or
`board-change` entry appears in the log), and the only events of the
gesture are `drag-start` and `drag-end {success: false}`. -/
theorem c6_rejecting_drop (cfg : Config) (card : Card) (cards : List Card)
    (cols : List Column) (swls : List Swimlane) (hs : List (Column × JOpt Nat))
    (col : Column) (tsw : JOpt Nat)
    (hen : isDragEnabled cfg = true) (hdr : card.draggable ≠ JOpt.val false)
    (hid : card.id ≠ 0) (hrej : col.acceptsCards = JOpt.val false) :
    (handleDragEnd (dropOnColumn cfg col tsw
        (runHovers cfg hs (startCardDrag cfg card ⟨cards, cols, swls, idleDrag, []⟩)))).cards =
      cards ∧
    (handleDragEnd (dropOnColumn cfg col tsw
        (runHovers cfg hs (startCardDrag cfg card ⟨cards, cols, swls, idleDrag, []⟩)))).columns =
      cols ∧
    (handleDragEnd (dropOnColumn cfg col tsw
        (runHovers cfg hs
          (startCardDrag cfg card ⟨cards, cols, swls, idleDrag, []⟩)))).swimlanes = swls ∧
    (handleDragEnd (dropOnColumn cfg col tsw
        (runHovers cfg hs (startCardDrag cfg card ⟨cards, cols, swls, idleDrag, []⟩)))).events =
      [Emitted.dragStart DragKind.card card.id, Emitted.dragEnd DragKind.card card.id false] := by
  have hstart := startCardDrag_active cfg card ⟨cards, cols, swls, idleDrag, []⟩ hen hdr
  obtain ⟨dropCol, dropSw, hXY⟩ :=
    runHovers_shape cfg hs (startCardDrag cfg card ⟨cards, cols, swls, idleDrag, []⟩)
  rw [hstart] at hXY
  have hdropOn : dropOnColumn cfg col tsw
      (runHovers cfg hs (startCardDrag cfg card ⟨cards, cols, swls, idleDrag, []⟩)) =
      runHovers cfg hs (startCardDrag cfg card ⟨cards, cols, swls, idleDrag, []⟩) := by
    unfold dropOnColumn
    rw [if_pos (by simp [hrej])]
  rw [hdropOn, hstart, hXY]
  unfold handleDragEnd resetDrag
  simp [jTruthy, jKind, jVal, hid]

/-- C6, witness: a concrete gesture — card `1` of column `1` dragged,
hovered over the rejecting column, and dropped on it
(`acceptsCards: false`), on a board with one swimlane. -/
theorem c6_rejecting_drop_witness :
    (handleDragEnd (dropOnColumn cfgDefault ⟨2, 1, JOpt.undef, JOpt.undef, JOpt.val false⟩
        JOpt.undef
        (runHovers cfgDefault [(⟨2, 1, JOpt.undef, JOpt.undef, JOpt.val false⟩, JOpt.undef)]
          (startCardDrag cfgDefault (⟨1, 1, JOpt.undef, 0, JOpt.undef⟩ : Card)
            ⟨[⟨1, 1, JOpt.undef, 0, JOpt.undef⟩], [⟨2, 1, JOpt.undef, JOpt.undef, JOpt.val false⟩],
              [⟨9, 0⟩], idleDrag, []⟩)))).cards = [⟨1, 1, JOpt.undef, 0, JOpt.undef⟩] ∧
    (handleDragEnd (dropOnColumn cfgDefault ⟨2, 1, JOpt.undef, JOpt.undef, JOpt.val false⟩
        JOpt.undef
        (runHovers cfgDefault [(⟨2, 1, JOpt.undef, JOpt.undef, JOpt.val false⟩, JOpt.undef)]
          (startCardDrag cfgDefault (⟨1, 1, JOpt.undef, 0, JOpt.undef⟩ : Card)
            ⟨[⟨1, 1, JOpt.undef, 0, JOpt.undef⟩], [⟨2, 1, JOpt.undef, JOpt.undef, JOpt.val false⟩],
              [⟨9, 0⟩], idleDrag, []⟩)))).swimlanes = [⟨9, 0⟩] ∧
    (handleDragEnd (dropOnColumn cfgDefault ⟨2, 1, JOpt.undef, JOpt.undef, JOpt.val false⟩
        JOpt.undef
        (runHovers cfgDefault [(⟨2, 1, JOpt.undef, JOpt.undef, JOpt.val false⟩, JOpt.undef)]
          (startCardDrag cfgDefault (⟨1, 1, JOpt.undef, 0, JOpt.undef⟩ : Card)
            ⟨[⟨1, 1, JOpt.undef, 0, JOpt.undef⟩], [⟨2, 1, JOpt.undef, JOpt.undef, JOpt.val false⟩],
              [⟨9, 0⟩], idleDrag, []⟩)))).events =
      [Emitted.dragStart DragKind.card 1, Emitted.dragEnd DragKind.card 1 false] :=
  ⟨(c6_rejecting_drop cfgDefault ⟨1, 1, JOpt.undef, 0, JOpt.undef⟩
      [⟨1, 1, JOpt.undef, 0, JOpt.undef⟩] [⟨2, 1, JOpt.undef, JOpt.undef, JOpt.val false⟩]
      [⟨9, 0⟩] [(⟨2, 1, JOpt.undef, JOpt.undef, JOpt.val false⟩, JOpt.undef)]
      ⟨2, 1, JOpt.undef, JOpt.undef, JOpt.val false⟩ JOpt.undef
      (by decide) (by decide) (by decide) (by decide)).1,
   (c6_rejecting_drop cfgDefault ⟨1, 1, JOpt.undef, 0, JOpt.undef⟩
      [⟨1, 1, JOpt.undef, 0, JOpt.undef⟩] [⟨2, 1, JOpt.undef, JOpt.undef, JOpt.val false⟩]
      [⟨9, 0⟩] [(⟨2, 1, JOpt.undef, JOpt.undef, JOpt.val false⟩, JOpt.undef)]
      ⟨2, 1, JOpt.undef, JOpt.undef, JOpt.val false⟩ JOpt.undef
      (by decide) (by decide) (by decide) (by decide)).2.2.1,
   (c6_rejecting_drop cfgDefault ⟨1, 1, JOpt.undef, 0, JOpt.undef⟩
      [⟨1, 1, JOpt.undef, 0, JOpt.undef⟩] [⟨2, 1, JOpt.undef, JOpt.undef, JOpt.val false⟩]
      [⟨9, 0⟩] [(⟨2, 1, JOpt.undef, JOpt.undef, JOpt.val false⟩, JOpt.undef)]
      ⟨2, 1, JOpt.undef, JOpt.undef, JOpt.val false⟩ JOpt.undef
      (by decide) (by decide) (by decide) (by decide)).2.2.2⟩

/-- C8, amended: the drag layer tracks at most one subject (the state is a
single record), but a second begin-drag while a gesture is active is *not*
rejected: whenever the corresponding enable gate and the subject's own
`draggable` flag permit it, `startCardDrag` / `startColumnDrag` overwrite
the drag state wholesale with the new subject, whatever gesture was active
before. -/
theorem c8_amended (cfg : Config) (card : Card) (col : Column) (s t : BoardState)
    (hen : isDragEnabled cfg = true) (hdr : card.draggable ≠ JOpt.val false)
    (hcen : isColumnDragEnabled cfg = true) (hcdr : col.draggable ≠ JOpt.val false) :
    (startCardDrag cfg card s).drag =
      ⟨true, JOpt.val DragKind.card, JOpt.val card.id, JOpt.val card.columnId,
       jOrNull card.swimlaneId, JOpt.null, JOpt.null⟩ ∧
    (startColumnDrag cfg col t).drag =
      ⟨true, JOpt.val DragKind.column, JOpt.val col.id, JOpt.null, JOpt.null,
       JOpt.null, JOpt.null⟩ := by
  constructor
  · rw [startCardDrag_active cfg card s hen hdr]
  · rw [startColumnDrag_active cfg col t hcen hcdr]

/-- C8, witness: the amended overwrite property applied while a gesture on
card `1` is active, with card `5` as the second subject. -/
theorem c8_amended_witness :
    (startCardDrag cfgDefault (⟨5, 2, JOpt.undef, 0, JOpt.undef⟩ : Card)
        (startCardDrag cfgDefault (⟨1, 1, JOpt.undef, 0, JOpt.undef⟩ : Card)
          ⟨[], [], [], idleDrag, []⟩)).drag =
      ⟨true, JOpt.val DragKind.card, JOpt.val 5, JOpt.val 2, JOpt.null, JOpt.null, JOpt.null⟩ ∧
    (startColumnDrag cfgDefault (⟨7, 0, JOpt.undef, JOpt.undef, JOpt.undef⟩ : Column)
        (startCardDrag cfgDefault (⟨1, 1, JOpt.undef, 0, JOpt.undef⟩ : Card)
          ⟨[], [], [], idleDrag, []⟩)).drag =
      ⟨true, JOpt.val DragKind.column, JOpt.val 7, JOpt.null, JOpt.null,
       JOpt.null, JOpt.null⟩ :=
  c8_amended cfgDefault ⟨5, 2, JOpt.undef, 0, JOpt.undef⟩
    ⟨7, 0, JOpt.undef, JOpt.undef, JOpt.undef⟩
    (startCardDrag cfgDefault (⟨1, 1, JOpt.undef, 0, JOpt.undef⟩ : Card) ⟨[], [], [], idleDrag, []⟩)
    (startCardDrag cfgDefault (⟨1, 1, JOpt.undef, 0, JOpt.undef⟩ : Card) ⟨[], [], [], idleDrag, []⟩)
    (by decide) (by decide) (by decide) (by decide)

/-- C5, amended: with a stale subject id, the resolver itself is a silent
no-op — `moveCard` returns the (copied) collection unchanged and raises
nothing — but the commit path emits *no* event at all: `handleDrop` resets
the drag state and returns before any emission (so no `drag-end
{success: true}` fires), and the subsequent native drag-end handler finds
the state cleared and also emits nothing.  The collections are
unchanged. -/
theorem c5_amended (ev : CardMoveEvent) (cards0 : List Card)
    (hnf : findFirst (idP ev.card.id) cards0 = none)
    (cfg : Config) (cards : List Card) (cols : List Column) (swls : List Swimlane)
    (evs : List Emitted)
    (d : Nat) (sc ss dc ds : JOpt Nat) (cid : Nat) (sw : JOpt Nat)
    (hen : isDragEnabled cfg = true) (hd0 : d ≠ 0)
    (hfind : findFirst (idP d) cards = none) :
    moveCard ev cards0 = cards0 ∧
    handleDragEnd (handleDrop cfg cid sw
        ⟨cards, cols, swls, ⟨true, JOpt.val DragKind.card, JOpt.val d, sc, ss, dc, ds⟩, evs⟩) =
      ⟨cards, cols, swls, idleDrag, evs⟩ := by
  constructor
  · unfold moveCard
    rw [hnf]
  · have hdrop : handleDrop cfg cid sw
        ⟨cards, cols, swls, ⟨true, JOpt.val DragKind.card, JOpt.val d, sc, ss, dc, ds⟩, evs⟩ =
        ⟨cards, cols, swls, idleDrag, evs⟩ := by
      unfold handleDrop
      simp [hen, jTruthy, jVal, hd0, hfind, resetDrag]
    rw [hdrop]
    unfold handleDragEnd
    simp [jTruthy, idleDrag, resetDrag]

/-- C5, witness: concrete instantiation — an event and an active gesture
both referencing the absent card id `99` on a one-card board. -/
theorem c5_amended_witness :
    moveCard ⟨⟨99, 1, JOpt.undef, 0, JOpt.undef⟩, 1, 2, 0, 0, JOpt.undef, JOpt.undef⟩
        [⟨1, 1, JOpt.undef, 0, JOpt.undef⟩] = [⟨1, 1, JOpt.undef, 0, JOpt.undef⟩] ∧
    handleDragEnd (handleDrop cfgDefault 1 JOpt.undef
        ⟨[⟨1, 1, JOpt.undef, 0, JOpt.undef⟩], [], [],
          ⟨true, JOpt.val DragKind.card, JOpt.val 99, JOpt.val 1, JOpt.null,
            JOpt.null, JOpt.null⟩, [Emitted.dragStart DragKind.card 99]⟩) =
      ⟨[⟨1, 1, JOpt.undef, 0, JOpt.undef⟩], [], [], idleDrag,
        [Emitted.dragStart DragKind.card 99]⟩ :=
  c5_amended ⟨⟨99, 1, JOpt.undef, 0, JOpt.undef⟩, 1, 2, 0, 0, JOpt.undef, JOpt.undef⟩
    [⟨1, 1, JOpt.undef, 0, JOpt.undef⟩] (by decide)
    cfgDefault [⟨1, 1, JOpt.undef, 0, JOpt.undef⟩] [] []
    [Emitted.dragStart DragKind.card 99]
    99 (JOpt.val 1) JOpt.null JOpt.null JOpt.null 1 JOpt.undef
    (by decide) (by decide) (by decide)

/-- C10, amended: for every committed drop whose target `(columnId,
swimlaneId)` genuinely differs from the dragged card's own group (and with
a non-`null` swimlane parameter, as the templates pass `undefined` or a
swimlane id), the emitted move event's `toIndex` is the *length of the
column projection* `getCardsForColumn(columnId, swimlaneId)` — the number
of cards in the target group when a swimlane id is given, but the number
of cards in the whole column when the swimlane parameter is `undefined`
(the projection then skips the swimlane filter).  The event's other fields
are the card, its column, its `order` as `fromIndex`, and
`card.swimlaneId || null` as `fromSwimlaneId`. -/
theorem c10_amended (cfg : Config) (cards : List Card) (cols : List Column)
    (swls : List Swimlane) (card : Card) (tcol : Nat) (tsw : JOpt Nat)
    (hen : isDragEnabled cfg = true) (hdr : card.draggable ≠ JOpt.val false)
    (hid : card.id ≠ 0) (hcol0 : card.columnId ≠ 0)
    (hfind : findFirst (idP card.id) cards = some card)
    (htsw : tsw ≠ JOpt.null)
    (hdiff : ¬(tcol = card.columnId ∧ tsw = card.swimlaneId)) :
    moveEventsOf (handleDrop cfg tcol tsw
        (startCardDrag cfg card ⟨cards, cols, swls, idleDrag, []⟩)).events =
      [⟨card, card.columnId, tcol, card.order,
        (getCardsForColumn tcol tsw cards).length, jOrNull card.swimlaneId, tsw⟩] := by
  rw [startCardDrag_active cfg card ⟨cards, cols, swls, idleDrag, []⟩ hen hdr]
  unfold handleDrop
  by_cases htc : tcol = card.columnId
  · have hsw : tsw ≠ jOrNull card.swimlaneId := by
      intro hEq
      unfold jOrNull at hEq
      by_cases htr : jTruthy card.swimlaneId = true
      · rw [if_pos htr] at hEq
        exact hdiff ⟨htc, hEq⟩
      · rw [Bool.not_eq_true] at htr
        rw [htr] at hEq
        simp at hEq
        exact htsw hEq
    simp [hen, jTruthy, jVal, hid, hcol0, hfind, htc, hsw, resetDrag, moveEventsOf]
  · simp [hen, jTruthy, jVal, hid, hcol0, hfind, htc, resetDrag, moveEventsOf]

/-- C10, witness: the mixed-swimlane board — dropping card `3` (from
column 1) on column 2 with no swimlane emits `toIndex` equal to the
length of the whole column-2 projection. -/
theorem c10_amended_witness :
    moveEventsOf (handleDrop cfgDefault 2 JOpt.undef
        (startCardDrag cfgDefault (⟨3, 1, JOpt.undef, 0, JOpt.undef⟩ : Card)
          ⟨[⟨1, 2, JOpt.val 5, 0, JOpt.undef⟩, ⟨2, 2, JOpt.undef, 0, JOpt.undef⟩,
            ⟨3, 1, JOpt.undef, 0, JOpt.undef⟩], [], [], idleDrag, []⟩)).events =
      [⟨⟨3, 1, JOpt.undef, 0, JOpt.undef⟩, 1, 2, 0,
        (getCardsForColumn 2 JOpt.undef
          [⟨1, 2, JOpt.val 5, 0, JOpt.undef⟩, ⟨2, 2, JOpt.undef, 0, JOpt.undef⟩,
           ⟨3, 1, JOpt.undef, 0, JOpt.undef⟩]).length,
        jOrNull JOpt.undef, JOpt.undef⟩] :=
  c10_amended cfgDefault
    [⟨1, 2, JOpt.val 5, 0, JOpt.undef⟩, ⟨2, 2, JOpt.undef, 0, JOpt.undef⟩,
     ⟨3, 1, JOpt.undef, 0, JOpt.undef⟩] [] []
    ⟨3, 1, JOpt.undef, 0, JOpt.undef⟩ 2 JOpt.undef
    (by decide) (by decide) (by decide) (by decide) (by decide) (by decide) (by decide)

/-! ## Frame lemmas for the in-place mutation analysis -/

/-- `splice` steps structurally over a cons for a positive index. -/
theorem splice_cons_succ {α : Type} (c : α) (cs : List α) (i : Nat) (a : α) :
    splice (c :: cs) (i + 1) a = c :: splice cs i a := rfl

/-- JS `splice(i, 0, a)` always grows the array by one. -/
theorem splice_length {α : Type} (l : List α) (i : Nat) (a : α) :
    (splice l i a).length = l.length + 1 := by
  unfold splice
  simp only [List.length_append, List.length_cons, List.length_take, List.length_drop]
  omega

/-- Elements left of the insertion point are untouched by `splice`. -/
theorem splice_getD_lt {α : Type} (d : α) :
    ∀ (l : List α) (i : Nat) (a : α) (n : Nat), n < i → i ≤ l.length →
      (splice l i a).getD n d = l.getD n d := by
  intro l
  induction l with
  | nil =>
    intro i a n hn hi
    simp only [List.length_nil, Nat.le_zero] at hi
    omega
  | cons c cs ih =>
    intro i a n hn hi
    cases i with
    | zero => omega
    | succ i' =>
      rw [splice_cons_succ]
      cases n with
      | zero => rfl
      | succ n' =>
        rw [List.getD_cons_succ, List.getD_cons_succ]
        exact ih i' a n' (by omega) (by simpa using Nat.le_of_succ_le_succ hi)

/-- The inserted element sits at the insertion index. -/
theorem splice_getD_self {α : Type} (d : α) :
    ∀ (l : List α) (i : Nat) (a : α), i ≤ l.length → (splice l i a).getD i d = a := by
  intro l
  induction l with
  | nil =>
    intro i a hi
    simp only [List.length_nil, Nat.le_zero] at hi
    subst hi
    rfl
  | cons c cs ih =>
    intro i a hi
    cases i with
    | zero => rfl
    | succ i' =>
      rw [splice_cons_succ, List.getD_cons_succ]
      exact ih i' a (by simpa using Nat.le_of_succ_le_succ hi)

/-- Elements right of the insertion point are shifted up by one. -/
theorem splice_getD_gt {α : Type} (d : α) :
    ∀ (l : List α) (i : Nat) (a : α) (n : Nat), i < n →
      (splice l i a).getD n d = l.getD (n - 1) d := by
  intro l
  induction l with
  | nil =>
    intro i a n hn
    have h1 : splice ([] : List α) i a = [a] := by
      unfold splice
      simp
    rw [h1]
    cases n with
    | zero => omega
    | succ n' =>
      rw [List.getD_cons_succ]
      simp [List.getD]
  | cons c cs ih =>
    intro i a n hn
    cases i with
    | zero =>
      cases n with
      | zero => omega
      | succ n' =>
        show (a :: c :: cs).getD (n' + 1) d = (c :: cs).getD (n' + 1 - 1) d
        rw [List.getD_cons_succ]
        simp
    | succ i' =>
      rw [splice_cons_succ]
      cases n with
      | zero => omega
      | succ n' =>
        rw [List.getD_cons_succ]
        rw [ih i' a n' (by omega)]
        cases n' with
        | zero => omega
        | succ n'' =>
          simp only [Nat.succ_sub_one]
          rw [List.getD_cons_succ]

/-- The source renumber pass keeps the array length. -/
theorem renumGroup_length (p : Card → Bool) : ∀ (i : Nat) (l : List Card),
    (renumGroup p i l).length = l.length := by
  intro i l
  induction l generalizing i with
  | nil => rfl
  | cons c cs ih =>
    unfold renumGroup
    split
    · simp [ih]
    · simp [ih]

/-- The target renumber pass keeps the array length. -/
theorem targetMut_length (q : Card → Bool) (pos : Nat) : ∀ (j : Nat) (l : List Card),
    (targetMut q pos j l).length = l.length := by
  intro j l
  induction l generalizing j with
  | nil => rfl
  | cons c cs ih =>
    unfold targetMut
    split
    · simp [ih]
    · simp [ih]

/-- The source renumber pass does not touch objects outside the group. -/
theorem renumGroup_getD_of_not (p : Card → Bool) (d : Card) :
    ∀ (l : List Card) (i n : Nat), p (l.getD n d) = false →
      (renumGroup p i l).getD n d = l.getD n d := by
  intro l
  induction l with
  | nil =>
    intro i n _
    rfl
  | cons c cs ih =>
    intro i n hp
    cases n with
    | zero =>
      rw [List.getD_cons_zero] at hp
      unfold renumGroup
      rw [if_neg (by simp [hp])]
      rfl
    | succ n' =>
      rw [List.getD_cons_succ] at hp
      unfold renumGroup
      split
      · rw [List.getD_cons_succ, List.getD_cons_succ]
        exact ih (i + 1) n' hp
      · rw [List.getD_cons_succ, List.getD_cons_succ]
        exact ih i n' hp

/-- The target renumber pass does not touch objects outside the group. -/
theorem targetMut_getD_of_not (q : Card → Bool) (pos : Nat) (d : Card) :
    ∀ (l : List Card) (j n : Nat), q (l.getD n d) = false →
      (targetMut q pos j l).getD n d = l.getD n d := by
  intro l
  induction l with
  | nil =>
    intro j n _
    rfl
  | cons c cs ih =>
    intro j n hq
    cases n with
    | zero =>
      rw [List.getD_cons_zero] at hq
      unfold targetMut
      rw [if_neg (by simp [hq])]
      rfl
    | succ n' =>
      rw [List.getD_cons_succ] at hq
      unfold targetMut
      split
      · rw [List.getD_cons_succ, List.getD_cons_succ]
        exact ih (j + 1) n' hq
      · rw [List.getD_cons_succ, List.getD_cons_succ]
        exact ih j n' hq

/-- `findIndex` / `splice(i, 1)` decomposition: a successful find splits
the array into the element at the found index and the rest, and `find`
returns that element. -/
theorem findIndexD_reconstruct {α : Type} (p : α → Bool) (d : α) :
    ∀ (l : List α) (i : Nat), findIndexD p l = some i →
      i ≤ (removeFirst p l).length ∧
      splice (removeFirst p l) i (l.getD i d) = l ∧
      findFirst p l = some (l.getD i d) := by
  intro l
  induction l with
  | nil =>
    intro i h
    exact absurd h (by simp [findIndexD])
  | cons c cs ih =>
    intro i h
    unfold findIndexD at h
    by_cases hp : p c = true
    · rw [if_pos hp] at h
      cases h
      refine ⟨Nat.zero_le _, ?_, ?_⟩
      · rw [List.getD_cons_zero]
        unfold removeFirst
        rw [if_pos hp]
        rfl
      · rw [List.getD_cons_zero]
        unfold findFirst
        rw [if_pos hp]
    · rw [if_neg hp] at h
      cases hidx : findIndexD p cs with
      | none => rw [hidx] at h; exact absurd h (by simp)
      | some i' =>
        rw [hidx] at h
        simp only [Option.map_some', Option.some.injEq] at h
        subst h
        obtain ⟨h1, h2, h3⟩ := ih i' hidx
        rw [Bool.not_eq_true] at hp
        refine ⟨?_, ?_, ?_⟩
        · unfold removeFirst
          rw [if_neg (by simp [hp])]
          simp only [List.length_cons]
          omega
        · unfold removeFirst
          rw [if_neg (by simp [hp])]
          rw [List.getD_cons_succ, splice_cons_succ, h2]
        · unfold findFirst
          rw [if_neg (by simp [hp])]
          rw [List.getD_cons_succ]
          exact h3

/-- C9, amended: `moveColumn` maps every column to a freshly built object
and never writes to an input object (in the embedding it has no post-call
effect on the input at all), but `moveCard` — while returning a fresh
array — mutates the `order` field of the input card objects that match the
event's source or target group, through the shared references of its
shallow copy.  The frame of that mutation: the call keeps the input
array's length, the moved card's own object is never written (its update
is a spread copy), and every input card matching neither the source nor
the target group keeps all its field values. -/
theorem c9_amended (ev : CardMoveEvent) (cards : List Card) (dflt : Card) :
    (moveCardPost ev cards).length = cards.length ∧
    (∀ i, findIndexD (idP ev.card.id) cards = some i →
      (moveCardPost ev cards).getD i dflt = cards.getD i dflt) ∧
    (∀ n, inGroup (fromKey ev) (cards.getD n dflt) = false →
      inGroup (toKey ev) (cards.getD n dflt) = false →
      (moveCardPost ev cards).getD n dflt = cards.getD n dflt) := by
  unfold moveCardPost
  cases hIdx : findIndexD (idP ev.card.id) cards with
  | none =>
    cases hF : findFirst (idP ev.card.id) cards with
    | none =>
      refine ⟨rfl, ?_, ?_⟩
      · intro i hi
        cases hi
      · intro n _ _
        rfl
    | some orig =>
      refine ⟨rfl, ?_, ?_⟩
      · intro i hi
        cases hi
      · intro n _ _
        rfl
  | some i =>
    cases hF : findFirst (idP ev.card.id) cards with
    | none =>
      refine ⟨rfl, ?_, ?_⟩
      · intro i' _
        rfl
      · intro n _ _
        rfl
    | some orig =>
      obtain ⟨hle, hrec, hfirst⟩ := findIndexD_reconstruct (idP ev.card.id) dflt cards i hIdx
      rw [hF] at hfirst
      have horig : orig = cards.getD i dflt := by
        injection hfirst
      dsimp only
      set rest := removeFirst (idP ev.card.id) cards with hrest
      set rest1 := renumGroup (inGroup (fromKey ev)) 0 rest with hrest1
      set tgt := rest1.filter (inGroup (toKey ev)) with htgt
      set rest2 := targetMut (inGroup (toKey ev)) (min ev.toIndex tgt.length) 0 rest1 with hrest2
      have hlen1 : rest1.length = rest.length := renumGroup_length _ 0 rest
      have hlen2 : rest2.length = rest.length := by
        rw [hrest2, targetMut_length, hlen1]
      have hlei : i ≤ rest2.length := by rw [hlen2]; exact hle
      have hcardsLen : cards.length = rest.length + 1 := by
        conv_lhs => rw [← hrec]
        rw [splice_length]
      have hrw_lt : ∀ n, n < i → cards.getD n dflt = rest.getD n dflt := by
        intro n hn
        conv_lhs => rw [← hrec]
        rw [splice_getD_lt dflt rest i _ n hn hle]
      have hrw_gt : ∀ n, i < n → cards.getD n dflt = rest.getD (n - 1) dflt := by
        intro n hn
        conv_lhs => rw [← hrec]
        rw [splice_getD_gt dflt rest i _ n hn]
      have hchain : ∀ m, inGroup (fromKey ev) (rest.getD m dflt) = false →
          inGroup (toKey ev) (rest.getD m dflt) = false →
          rest2.getD m dflt = rest.getD m dflt := by
        intro m hf ht
        have h1 : rest1.getD m dflt = rest.getD m dflt :=
          renumGroup_getD_of_not _ dflt rest 0 m hf
        rw [hrest2, targetMut_getD_of_not _ _ dflt rest1 0 m (by rw [h1]; exact ht), h1]
      refine ⟨?_, ?_, ?_⟩
      · rw [splice_length, hlen2, hcardsLen]
      · intro i' hi'
        injection hi' with hii
        subst hii
        rw [splice_getD_self dflt rest2 i orig hlei, horig]
      · intro n hfrom hto
        rcases Nat.lt_trichotomy n i with hlt | heq | hgt
        · rw [splice_getD_lt dflt rest2 i orig n hlt hlei, hrw_lt n hlt]
          rw [hrw_lt n hlt] at hfrom hto
          exact hchain n hfrom hto
        · subst heq
          rw [splice_getD_self dflt rest2 n orig hlei, horig]
        · rw [splice_getD_gt dflt rest2 i orig n hgt, hrw_gt n hgt]
          rw [hrw_gt n hgt] at hfrom hto
          exact hchain (n - 1) hfrom hto

/-- C9, witness: the frame property applied on a two-card board — the
moved card (index 0) and a card of an unrelated column (index 1) keep
their field values across a cross-column `moveCard`. -/
theorem c9_amended_witness :
    (moveCardPost ⟨⟨1, 1, JOpt.undef, 0, JOpt.undef⟩, 1, 2, 0, 0, JOpt.undef, JOpt.undef⟩
        [⟨1, 1, JOpt.undef, 0, JOpt.undef⟩, ⟨2, 3, JOpt.undef, 7, JOpt.undef⟩]).getD 0
        ⟨0, 0, JOpt.undef, 0, JOpt.undef⟩ =
      ([⟨1, 1, JOpt.undef, 0, JOpt.undef⟩, ⟨2, 3, JOpt.undef, 7, JOpt.undef⟩] : List Card).getD 0
        ⟨0, 0, JOpt.undef, 0, JOpt.undef⟩ ∧
    (moveCardPost ⟨⟨1, 1, JOpt.undef, 0, JOpt.undef⟩, 1, 2, 0, 0, JOpt.undef, JOpt.undef⟩
        [⟨1, 1, JOpt.undef, 0, JOpt.undef⟩, ⟨2, 3, JOpt.undef, 7, JOpt.undef⟩]).getD 1
        ⟨0, 0, JOpt.undef, 0, JOpt.undef⟩ =
      ([⟨1, 1, JOpt.undef, 0, JOpt.undef⟩, ⟨2, 3, JOpt.undef, 7, JOpt.undef⟩] : List Card).getD 1
        ⟨0, 0, JOpt.undef, 0, JOpt.undef⟩ :=
  ⟨(c9_amended ⟨⟨1, 1, JOpt.undef, 0, JOpt.undef⟩, 1, 2, 0, 0, JOpt.undef, JOpt.undef⟩
      [⟨1, 1, JOpt.undef, 0, JOpt.undef⟩, ⟨2, 3, JOpt.undef, 7, JOpt.undef⟩]
      ⟨0, 0, JOpt.undef, 0, JOpt.undef⟩).2.1 0 (by decide),
   (c9_amended ⟨⟨1, 1, JOpt.undef, 0, JOpt.undef⟩, 1, 2, 0, 0, JOpt.undef, JOpt.undef⟩
      [⟨1, 1, JOpt.undef, 0, JOpt.undef⟩, ⟨2, 3, JOpt.undef, 7, JOpt.undef⟩]
      ⟨0, 0, JOpt.undef, 0, JOpt.undef⟩).2.2 1 (by decide) (by decide)⟩

/-! ## Permutation lemmas for set preservation -/

/-- A found element together with the array after `splice(i, 1)` is a
permutation of the original array. -/
theorem findFirst_removeFirst_perm {α : Type} (p : α → Bool) :
    ∀ (l : List α) (a : α), findFirst p l = some a → l.Perm (a :: removeFirst p l) := by
  intro l
  induction l with
  | nil =>
    intro a h
    exact absurd h (by simp [findFirst])
  | cons c cs ih =>
    intro a h
    unfold findFirst at h
    by_cases hp : p c = true
    · rw [if_pos hp] at h
      cases h
      unfold removeFirst
      rw [if_pos hp]
    · rw [if_neg hp] at h
      unfold removeFirst
      rw [Bool.not_eq_true] at hp
      rw [if_neg (by simp [hp])]
      exact ((ih a h).cons c).trans (List.Perm.swap a c (removeFirst p cs))

/-- Inserting with `splice(i, 0, a)` is, up to permutation, a cons. -/
theorem splice_perm {α : Type} (l : List α) (i : Nat) (a : α) :
    (splice l i a).Perm (a :: l) := by
  unfold splice
  have h := @List.perm_middle α a (l.take i) (l.drop i)
  rw [List.take_append_drop] at h
  exact h

/-- The renumber pass keeps every element's id. -/
theorem renumberFrom_map_id : ∀ (i : Nat) (l : List Card),
    (renumberFrom i l).map (fun c => c.id) = l.map (fun c => c.id) := by
  intro i l
  induction l generalizing i with
  | nil => rfl
  | cons c cs ih =>
    unfold renumberFrom
    simp [ih]

/-- The renumber pass keeps the length. -/
theorem renumberFrom_length : ∀ (i : Nat) (l : List Card),
    (renumberFrom i l).length = l.length := by
  intro i l
  induction l generalizing i with
  | nil => rfl
  | cons c cs ih =>
    unfold renumberFrom
    simp [ih]

/-- The renumber pass writes exactly the orders `i, i+1, ...` in
sequence. -/
theorem renumberFrom_map_order : ∀ (i : Nat) (l : List Card),
    (renumberFrom i l).map (fun c => c.order) = rangeFrom i l.length := by
  intro i l
  induction l generalizing i with
  | nil => rfl
  | cons c cs ih =>
    unfold renumberFrom
    simp only [List.map_cons, List.length_cons]
    rw [ih]
    rfl

/-- Filtering by a predicate that is order-blind and excluded by the
renumbered group sees no effect of the source pass. -/
theorem renumGroup_filter_of_excl (p r : Card → Bool)
    (h1 : ∀ (c : Card) (n : Nat), r { c with order := n } = r c)
    (h2 : ∀ c, p c = true → r c = false) :
    ∀ (i : Nat) (l : List Card), (renumGroup p i l).filter r = l.filter r := by
  intro i l
  induction l generalizing i with
  | nil => rfl
  | cons c cs ih =>
    unfold renumGroup
    by_cases hp : p c = true
    · rw [if_pos hp]
      rw [List.filter_cons, List.filter_cons, h1, h2 c hp]
      simp only [Bool.false_eq_true, if_false]
      exact ih (i + 1)
    · rw [if_neg hp]
      rw [List.filter_cons, List.filter_cons]
      cases hr : r c with
      | true => simp only [if_true]; rw [ih i]
      | false => simp only [Bool.false_eq_true, if_false]; exact ih i

/-- Filtering by a predicate that is order-blind and excluded by the
renumbered group sees no effect of the target pass. -/
theorem targetMut_filter_of_excl (q r : Card → Bool) (pos : Nat)
    (h1 : ∀ (c : Card) (n : Nat), r { c with order := n } = r c)
    (h2 : ∀ c, q c = true → r c = false) :
    ∀ (j : Nat) (l : List Card), (targetMut q pos j l).filter r = l.filter r := by
  intro j l
  induction l generalizing j with
  | nil => rfl
  | cons c cs ih =>
    unfold targetMut
    by_cases hq : q c = true
    · rw [if_pos hq]
      rw [List.filter_cons, List.filter_cons, h1, h2 c hq]
      simp only [Bool.false_eq_true, if_false]
      exact ih (j + 1)
    · rw [if_neg hq]
      rw [List.filter_cons, List.filter_cons]
      cases hr : r c with
      | true => simp only [if_true]; rw [ih j]
      | false => simp only [Bool.false_eq_true, if_false]; exact ih j

/-- Filtering the source pass by its own (order-blind) group yields the
group's members renumbered in sequence. -/
theorem renumGroup_filter_self (p : Card → Bool)
    (h1 : ∀ (c : Card) (n : Nat), p { c with order := n } = p c) :
    ∀ (i : Nat) (l : List Card),
      (renumGroup p i l).filter p = renumberFrom i (l.filter p) := by
  intro i l
  induction l generalizing i with
  | nil => rfl
  | cons c cs ih =>
    unfold renumGroup
    by_cases hp : p c = true
    · rw [if_pos hp]
      rw [List.filter_cons, List.filter_cons, h1, hp]
      simp only [if_true]
      unfold renumberFrom
      rw [ih (i + 1)]
    · rw [if_neg hp]
      rw [List.filter_cons, List.filter_cons]
      rw [Bool.not_eq_true] at hp
      rw [hp]
      simp only [Bool.false_eq_true, if_false]
      exact ih i

/-- A collection splits, up to permutation, into the two disjoint group
buckets and the untouched remainder — the three filters of `moveCard`. -/
theorem filter_three_partition (p q : Card → Bool)
    (hdisj : ∀ c, ¬(p c = true ∧ q c = true)) :
    ∀ l : List Card,
      (l.filter (fun c => !(q c) && !(p c)) ++ l.filter q ++ l.filter p).Perm l := by
  intro l
  induction l with
  | nil => simp
  | cons c cs ih =>
    by_cases hq : q c = true
    · have hp : p c = false := by
        cases hpc : p c with
        | true => exact absurd ⟨hpc, hq⟩ (hdisj c)
        | false => rfl
      rw [List.filter_cons, List.filter_cons, List.filter_cons]
      rw [hq, hp]
      simp only [Bool.not_true, Bool.false_and, Bool.false_eq_true, if_false, if_true]
      have hshape :
          List.filter (fun c => !(q c) && !(p c)) cs ++ (c :: List.filter q cs) ++
              List.filter p cs =
            List.filter (fun c => !(q c) && !(p c)) cs ++
              c :: (List.filter q cs ++ List.filter p cs) := by
        rw [List.append_assoc]
        rfl
      rw [hshape]
      refine List.Perm.trans List.perm_middle (List.Perm.cons c ?_)
      rw [← List.append_assoc]
      exact ih
    · rw [Bool.not_eq_true] at hq
      by_cases hp : p c = true
      · rw [List.filter_cons, List.filter_cons, List.filter_cons]
        rw [hq, hp]
        simp only [Bool.not_true, Bool.and_false, Bool.false_eq_true, if_false, if_true]
        exact List.Perm.trans List.perm_middle (List.Perm.cons c ih)
      · rw [Bool.not_eq_true] at hp
        rw [List.filter_cons, List.filter_cons, List.filter_cons]
        rw [hq, hp]
        simp only [Bool.not_false, Bool.and_self, if_true, Bool.false_eq_true, if_false]
        simp only [List.cons_append]
        exact List.Perm.cons c ih

/-- A card belongs to exactly one group key. -/
theorem inGroup_unique (g g' : GroupKey) (c : Card)
    (h : inGroup g c = true) (h' : inGroup g' c = true) : g = g' := by
  unfold inGroup at h h'
  obtain ⟨ha, hb⟩ := of_decide_eq_true h
  obtain ⟨hc, hd⟩ := of_decide_eq_true h'
  obtain ⟨g1, g2⟩ := g
  obtain ⟨g3, g4⟩ := g'
  simp only at ha hb hc hd
  rw [← ha, ← hb, ← hc, ← hd]

/-- The Boolean group test agrees with the group projection. -/
theorem cardGroup_inGroup_iff (g : GroupKey) (c : Card) :
    inGroup g c = true ↔ cardGroup c = g := by
  unfold inGroup cardGroup
  rw [decide_eq_true_iff, Prod.ext_iff]

/-- `moveCard` preserves the multiset of card ids whenever the event's
source group key differs from its target group key (including the
not-found defensive no-op). -/
theorem moveCard_ids_perm (ev : CardMoveEvent) (cards : List Card)
    (hcross : fromKey ev ≠ toKey ev) :
    (cardIds (moveCard ev cards)).Perm (cardIds cards) := by
  unfold moveCard
  cases hfind : findFirst (idP ev.card.id) cards with
  | none => exact List.Perm.refl _
  | some orig =>
    dsimp only
    have hdisj : ∀ c : Card,
        ¬(inGroup (fromKey ev) c = true ∧ inGroup (toKey ev) c = true) := by
      rintro c ⟨h1, h2⟩
      exact hcross (inGroup_unique _ _ c h1 h2)
    have hExclTo : ∀ c : Card, inGroup (fromKey ev) c = true →
        inGroup (toKey ev) c = false := by
      intro c h
      cases h' : inGroup (toKey ev) c with
      | false => rfl
      | true => exact absurd ⟨h, h'⟩ (hdisj c)
    have hExclFrom : ∀ c : Card, inGroup (toKey ev) c = true →
        inGroup (fromKey ev) c = false := by
      intro c h
      cases h' : inGroup (fromKey ev) c with
      | false => rfl
      | true => exact absurd ⟨h', h⟩ (hdisj c)
    set rest := removeFirst (idP ev.card.id) cards with hrest
    have hE3 : (renumGroup (inGroup (fromKey ev)) 0 rest).filter (inGroup (toKey ev)) =
        rest.filter (inGroup (toKey ev)) :=
      renumGroup_filter_of_excl (inGroup (fromKey ev)) (inGroup (toKey ev))
        (fun c n => rfl) hExclTo 0 rest
    rw [hE3]
    set fB := rest.filter (inGroup (toKey ev)) with hfB
    set upd := movedUpdate ev orig with hupd
    -- the "neither" bucket is untouched by both passes
    have hOthers : (targetMut (inGroup (toKey ev)) (min ev.toIndex fB.length) 0
          (renumGroup (inGroup (fromKey ev)) 0 rest)).filter
            (fun c => !(inGroup (toKey ev) c) && !(inGroup (fromKey ev) c)) =
        rest.filter (fun c => !(inGroup (toKey ev) c) && !(inGroup (fromKey ev) c)) := by
      rw [targetMut_filter_of_excl (inGroup (toKey ev))
        (fun c => !(inGroup (toKey ev) c) && !(inGroup (fromKey ev) c))
        (min ev.toIndex fB.length) (fun c n => rfl) (fun c h => by simp [h])]
      rw [renumGroup_filter_of_excl (inGroup (fromKey ev))
        (fun c => !(inGroup (toKey ev) c) && !(inGroup (fromKey ev) c))
        (fun c n => rfl) (fun c h => by simp [h])]
    have hFromPart : (targetMut (inGroup (toKey ev)) (min ev.toIndex fB.length) 0
          (renumGroup (inGroup (fromKey ev)) 0 rest)).filter (inGroup (fromKey ev)) =
        renumberFrom 0 (rest.filter (inGroup (fromKey ev))) := by
      rw [targetMut_filter_of_excl (inGroup (toKey ev)) (inGroup (fromKey ev))
        (min ev.toIndex fB.length) (fun c n => rfl) hExclFrom]
      rw [renumGroup_filter_self (inGroup (fromKey ev)) (fun c n => rfl)]
    rw [hOthers, hFromPart]
    unfold cardIds
    rw [List.map_append, List.map_append, renumberFrom_map_id, renumberFrom_map_id]
    set A := (rest.filter (fun c => !(inGroup (toKey ev) c) &&
      !(inGroup (fromKey ev) c))).map (fun c => c.id) with hA
    set B := fB.map (fun c => c.id) with hB
    set C := (rest.filter (inGroup (fromKey ev))).map (fun c => c.id) with hC
    have hsplice : ((splice fB ev.toIndex upd).map (fun c => c.id)).Perm (upd.id :: B) :=
      (splice_perm fB ev.toIndex upd).map (fun c => c.id)
    refine List.Perm.trans
      (((List.Perm.refl A).append hsplice).append (List.Perm.refl C)) ?_
    have hshape : A ++ (upd.id :: B) ++ C = A ++ upd.id :: (B ++ C) := by
      rw [List.append_assoc]
      rfl
    rw [hshape]
    refine List.Perm.trans List.perm_middle ?_
    rw [← List.append_assoc]
    have hABC : (A ++ B ++ C).Perm (rest.map (fun c => c.id)) := by
      rw [hA, hB, hC, hfB, ← List.map_append, ← List.map_append]
      exact (filter_three_partition (inGroup (fromKey ev)) (inGroup (toKey ev)) hdisj
        rest).map (fun c => c.id)
    have hcards : (cards.map (fun c => c.id)).Perm (orig.id :: rest.map (fun c => c.id)) := by
      have h := (findFirst_removeFirst_perm (idP ev.card.id) cards orig hfind).map
        (fun c => c.id)
      simpa [hrest] using h
    have hupdid : upd.id = orig.id := rfl
    rw [hupdid]
    exact List.Perm.trans (hABC.cons orig.id) hcards.symm

/-- The column renumber pass keeps every column's id. -/
theorem renumColsFrom_map_id : ∀ (i : Nat) (l : List Column),
    (renumColsFrom i l).map (fun c => c.id) = l.map (fun c => c.id) := by
  intro i l
  induction l generalizing i with
  | nil => rfl
  | cons c cs ih =>
    unfold renumColsFrom
    simp [ih]

/-- `moveColumn` always preserves the multiset of column ids. -/
theorem moveColumn_ids_perm (ev : ColumnMoveEvent) (cols : List Column) :
    (columnIds (moveColumn ev cols)).Perm (columnIds cols) := by
  unfold moveColumn
  cases hfind : findFirst (colIdP ev.column.id) cols with
  | none => exact List.Perm.refl _
  | some moved =>
    unfold columnIds
    rw [renumColsFrom_map_id]
    have h1 := (splice_perm (removeFirst (colIdP ev.column.id) cols) ev.toIndex moved).map
      (fun c => c.id)
    have h2 := (findFirst_removeFirst_perm (colIdP ev.column.id) cols moved hfind).map
      (fun c => c.id)
    simp only [List.map_cons] at h1 h2
    exact h1.trans h2.symm

/-- C3, amended: over every sequence of resolver calls in which each card
move's source group key `(fromColumnId, fromSwimlaneId)` differs from its
target group key (column moves and defensive not-found calls are
unrestricted), the multiset of card ids and the multiset of column ids are
both preserved.  A card move whose source group key equals its target
group key duplicates the group's cards in the rebuilt array (see the
counterexample), so the restriction is necessary. -/
theorem c3_amended (ops : List BoardOp) (cards : List Card) (cols : List Column)
    (hops : ops.all opCrossGroup = true) :
    (cardIds (applyOps ops (cards, cols)).1).Perm (cardIds cards) ∧
    (columnIds (applyOps ops (cards, cols)).2).Perm (columnIds cols) := by
  induction ops generalizing cards cols with
  | nil => exact ⟨List.Perm.refl _, List.Perm.refl _⟩
  | cons op ops ih =>
    rw [List.all_cons, Bool.and_eq_true] at hops
    obtain ⟨hop, hops2⟩ := hops
    cases op with
    | cardMove ev =>
      have hcross : fromKey ev ≠ toKey ev := by
        unfold opCrossGroup at hop
        simpa using hop
      have hih := ih (moveCard ev cards) cols hops2
      unfold applyOps applyOp
      exact ⟨hih.1.trans (moveCard_ids_perm ev cards hcross), hih.2⟩
    | colMove ev =>
      have hih := ih cards (moveColumn ev cols) hops2
      unfold applyOps applyOp
      exact ⟨hih.1, hih.2.trans (moveColumn_ids_perm ev cols)⟩

/-- C3, witness: a concrete two-step sequence — the spec scenario's
cross-column card move followed by a column move. -/
theorem c3_amended_witness :
    (cardIds (applyOps
        [BoardOp.cardMove ⟨specC1, 1, 2, 0, 0, JOpt.undef, JOpt.undef⟩,
         BoardOp.colMove ⟨specColA, 0, 1⟩]
        (specCards, [specColA, specColB])).1).Perm (cardIds specCards) ∧
    (columnIds (applyOps
        [BoardOp.cardMove ⟨specC1, 1, 2, 0, 0, JOpt.undef, JOpt.undef⟩,
         BoardOp.colMove ⟨specColA, 0, 1⟩]
        (specCards, [specColA, specColB])).2).Perm (columnIds [specColA, specColB]) :=
  c3_amended
    [BoardOp.cardMove ⟨specC1, 1, 2, 0, 0, JOpt.undef, JOpt.undef⟩,
     BoardOp.colMove ⟨specColA, 0, 1⟩]
    specCards [specColA, specColB] (by decide)

/-! ## Density preservation -/

/-- A filter whose predicate fails on every member is empty. -/
theorem filter_of_all_false {α : Type} (r : α → Bool) :
    ∀ l : List α, (∀ c ∈ l, r c = false) → l.filter r = [] := by
  intro l h
  induction l with
  | nil => rfl
  | cons c cs ih =>
    rw [List.filter_cons, h c (List.mem_cons_self c cs)]
    simp only [Bool.false_eq_true, if_false]
    exact ih (fun x hx => h x (List.mem_cons_of_mem c hx))

/-- A filter whose predicate holds on every member is the whole list. -/
theorem filter_of_all_true {α : Type} (r : α → Bool) :
    ∀ l : List α, (∀ c ∈ l, r c = true) → l.filter r = l := by
  intro l h
  induction l with
  | nil => rfl
  | cons c cs ih =>
    rw [List.filter_cons, h c (List.mem_cons_self c cs)]
    simp only [if_true]
    rw [ih (fun x hx => h x (List.mem_cons_of_mem c hx))]

/-- Members of a renumbered list are members of the original with the
order replaced. -/
theorem mem_renumberFrom {x : Card} :
    ∀ (i : Nat) (l : List Card), x ∈ renumberFrom i l →
      ∃ c ∈ l, ∃ n, x = { c with order := n } := by
  intro i l
  induction l generalizing i with
  | nil =>
    intro h
    exact absurd h (by simp [renumberFrom])
  | cons c cs ih =>
    intro h
    unfold renumberFrom at h
    rcases List.mem_cons.mp h with heq | hmem
    · exact ⟨c, (List.mem_cons_self c cs), i, heq⟩
    · obtain ⟨c', hc', n, hn⟩ := ih (i + 1) hmem
      exact ⟨c', List.mem_cons_of_mem c hc', n, hn⟩

/-- A renumbered list of group members survives an order-blind filter by
that group. -/
theorem renumberFrom_filter_all (r : Card → Bool)
    (h1 : ∀ (c : Card) (n : Nat), r { c with order := n } = r c)
    (i : Nat) (l : List Card) (h : ∀ c ∈ l, r c = true) :
    (renumberFrom i l).filter r = renumberFrom i l := by
  apply filter_of_all_true
  intro x hx
  obtain ⟨c, hc, n, hn⟩ := mem_renumberFrom i l hx
  rw [hn, h1]
  exact h c hc

/-- A renumbered list with no member of a group yields nothing under an
order-blind filter by that group. -/
theorem renumberFrom_filter_none (r : Card → Bool)
    (h1 : ∀ (c : Card) (n : Nat), r { c with order := n } = r c)
    (i : Nat) (l : List Card) (h : ∀ c ∈ l, r c = false) :
    (renumberFrom i l).filter r = [] := by
  apply filter_of_all_false
  intro x hx
  obtain ⟨c, hc, n, hn⟩ := mem_renumberFrom i l hx
  rw [hn, h1]
  exact h c hc

/-- A filter by `r` inside a filter by a weaker predicate collapses. -/
theorem filter_filter_of_imp {α : Type} (q r : α → Bool)
    (h : ∀ c, r c = true → q c = true) :
    ∀ l : List α, (l.filter q).filter r = l.filter r := by
  intro l
  induction l with
  | nil => rfl
  | cons c cs ih =>
    rw [List.filter_cons, List.filter_cons]
    by_cases hq : q c = true
    · rw [hq]
      simp only [if_true]
      rw [List.filter_cons, ih]
    · rw [Bool.not_eq_true] at hq
      rw [hq]
      have hr : r c = false := by
        cases hrc : r c with
        | false => rfl
        | true => rw [h c hrc] at hq; cases hq
      simp only [Bool.false_eq_true, if_false, hr]
      exact ih

/-- Removing an element that fails the filter predicate does not change
the filter. -/
theorem removeFirst_filter_of_not {α : Type} (p r : α → Bool) :
    ∀ (l : List α) (a : α), findFirst p l = some a → r a = false →
      (removeFirst p l).filter r = l.filter r := by
  intro l
  induction l with
  | nil =>
    intro a h _
    exact absurd h (by simp [findFirst])
  | cons c cs ih =>
    intro a h ha
    unfold findFirst at h
    by_cases hp : p c = true
    · rw [if_pos hp] at h
      cases h
      unfold removeFirst
      rw [if_pos hp, List.filter_cons, ha]
      simp only [Bool.false_eq_true, if_false]
    · rw [if_neg hp] at h
      rw [Bool.not_eq_true] at hp
      unfold removeFirst
      rw [if_neg (by simp [hp]), List.filter_cons, List.filter_cons]
      cases hr : r c with
      | true => simp only [if_true]; rw [ih a h ha]
      | false => simp only [Bool.false_eq_true, if_false]; exact ih a h ha

/-- Membership in a `splice(i, 0, a)` result. -/
theorem mem_splice_iff {α : Type} {x a : α} {l : List α} {i : Nat} :
    x ∈ splice l i a ↔ x = a ∨ x ∈ l := by
  rw [(splice_perm l i a).mem_iff, List.mem_cons]

/-- Single-step density preservation: `moveCard` keeps every group's
order values at exactly `{0, ..., n-1}` whenever the event is well formed
(the found card carries the event's source group and the source group key
differs from the target group key).  The source bucket is renumbered in
sequence (`0..s-1`), the target bucket (with the moved card spliced in)
in sequence (`0..t`), and every other group's cards are untouched. -/
theorem moveCard_dense (ev : CardMoveEvent) (cards : List Card)
    (hd : DenseOrders cards) (hwf : wfCardEv ev cards = true) :
    DenseOrders (moveCard ev cards) := by
  unfold wfCardEv at hwf
  unfold moveCard
  cases hfind : findFirst (idP ev.card.id) cards with
  | none => exact hd
  | some orig =>
    rw [hfind] at hwf
    simp only [Bool.and_eq_true, decide_eq_true_eq, Bool.not_eq_true',
      decide_eq_false_iff_not] at hwf
    obtain ⟨⟨hcol, hswim⟩, hcross⟩ := hwf
    dsimp only
    have hdisj : ∀ c : Card,
        ¬(inGroup (fromKey ev) c = true ∧ inGroup (toKey ev) c = true) := by
      rintro c ⟨h1, h2⟩
      exact hcross (inGroup_unique _ _ c h1 h2)
    have hExclTo : ∀ c : Card, inGroup (fromKey ev) c = true →
        inGroup (toKey ev) c = false := by
      intro c h
      cases h' : inGroup (toKey ev) c with
      | false => rfl
      | true => exact absurd ⟨h, h'⟩ (hdisj c)
    have hExclFrom : ∀ c : Card, inGroup (toKey ev) c = true →
        inGroup (fromKey ev) c = false := by
      intro c h
      cases h' : inGroup (fromKey ev) c with
      | false => rfl
      | true => exact absurd ⟨h', h⟩ (hdisj c)
    set rest := removeFirst (idP ev.card.id) cards with hrest
    have hE3 : (renumGroup (inGroup (fromKey ev)) 0 rest).filter (inGroup (toKey ev)) =
        rest.filter (inGroup (toKey ev)) :=
      renumGroup_filter_of_excl (inGroup (fromKey ev)) (inGroup (toKey ev))
        (fun c n => rfl) hExclTo 0 rest
    rw [hE3]
    set fB := rest.filter (inGroup (toKey ev)) with hfB
    set upd := movedUpdate ev orig with hupd
    have hOthers : (targetMut (inGroup (toKey ev)) (min ev.toIndex fB.length) 0
          (renumGroup (inGroup (fromKey ev)) 0 rest)).filter
            (fun c => !(inGroup (toKey ev) c) && !(inGroup (fromKey ev) c)) =
        rest.filter (fun c => !(inGroup (toKey ev) c) && !(inGroup (fromKey ev) c)) := by
      rw [targetMut_filter_of_excl (inGroup (toKey ev))
        (fun c => !(inGroup (toKey ev) c) && !(inGroup (fromKey ev) c))
        (min ev.toIndex fB.length) (fun c n => rfl) (fun c h => by simp [h])]
      rw [renumGroup_filter_of_excl (inGroup (fromKey ev))
        (fun c => !(inGroup (toKey ev) c) && !(inGroup (fromKey ev) c))
        (fun c n => rfl) (fun c h => by simp [h])]
    have hFromPart : (targetMut (inGroup (toKey ev)) (min ev.toIndex fB.length) 0
          (renumGroup (inGroup (fromKey ev)) 0 rest)).filter (inGroup (fromKey ev)) =
        renumberFrom 0 (rest.filter (inGroup (fromKey ev))) := by
      rw [targetMut_filter_of_excl (inGroup (toKey ev)) (inGroup (fromKey ev))
        (min ev.toIndex fB.length) (fun c n => rfl) hExclFrom]
      rw [renumGroup_filter_self (inGroup (fromKey ev)) (fun c n => rfl)]
    rw [hOthers, hFromPart]
    -- facts about members of the spliced target bucket
    have hupd_to : inGroup (toKey ev) upd = true := by
      rw [hupd]
      unfold inGroup movedUpdate toKey
      simp
    have hTI_to : ∀ c ∈ splice fB ev.toIndex upd, inGroup (toKey ev) c = true := by
      intro c hc
      rcases mem_splice_iff.mp hc with hceq | hcmem
      · rw [hceq]; exact hupd_to
      · exact List.of_mem_filter hcmem
    have horigGroup : inGroup (fromKey ev) orig = true := by
      unfold inGroup fromKey
      simp [hcol, hswim]
    -- the rebuilt collection
    intro g hg
    unfold groupCards
    rw [List.filter_append, List.filter_append]
    by_cases hgto : g = toKey ev
    · subst hgto
      have hA : (rest.filter (fun c => !(inGroup (toKey ev) c) &&
          !(inGroup (fromKey ev) c))).filter (inGroup (toKey ev)) = [] := by
        apply filter_of_all_false
        intro c hc
        have := List.of_mem_filter hc
        simp only [Bool.and_eq_true, Bool.not_eq_true'] at this
        exact this.1
      have hMid : (renumberFrom 0 (splice fB ev.toIndex upd)).filter (inGroup (toKey ev)) =
          renumberFrom 0 (splice fB ev.toIndex upd) :=
        renumberFrom_filter_all (inGroup (toKey ev)) (fun c n => rfl) 0 _ hTI_to
      have hC : (renumberFrom 0 (rest.filter (inGroup (fromKey ev)))).filter
          (inGroup (toKey ev)) = [] := by
        apply renumberFrom_filter_none (inGroup (toKey ev)) (fun c n => rfl)
        intro c hc
        exact hExclTo c (List.of_mem_filter hc)
      rw [hA, hMid, hC, List.nil_append, List.append_nil,
        renumberFrom_map_order, renumberFrom_length]
    · by_cases hgfrom : g = fromKey ev
      · subst hgfrom
        have hA : (rest.filter (fun c => !(inGroup (toKey ev) c) &&
            !(inGroup (fromKey ev) c))).filter (inGroup (fromKey ev)) = [] := by
          apply filter_of_all_false
          intro c hc
          have := List.of_mem_filter hc
          simp only [Bool.and_eq_true, Bool.not_eq_true'] at this
          exact this.2
        have hMid : (renumberFrom 0 (splice fB ev.toIndex upd)).filter
            (inGroup (fromKey ev)) = [] := by
          apply renumberFrom_filter_none (inGroup (fromKey ev)) (fun c n => rfl)
          intro c hc
          exact hExclFrom c (hTI_to c hc)
        have hC : (renumberFrom 0 (rest.filter (inGroup (fromKey ev)))).filter
            (inGroup (fromKey ev)) = renumberFrom 0 (rest.filter (inGroup (fromKey ev))) := by
          apply renumberFrom_filter_all (inGroup (fromKey ev)) (fun c n => rfl)
          intro c hc
          exact List.of_mem_filter hc
        rw [hA, hMid, hC, List.nil_append, List.nil_append,
        renumberFrom_map_order, renumberFrom_length]
      · -- untouched group: equal to the input's bucket
        have hgc : ∀ c : Card, inGroup g c = true → inGroup (toKey ev) c = false := by
          intro c h
          cases h' : inGroup (toKey ev) c with
          | false => rfl
          | true => exact absurd (inGroup_unique g (toKey ev) c h h') hgto
        have hgf : ∀ c : Card, inGroup g c = true → inGroup (fromKey ev) c = false := by
          intro c h
          cases h' : inGroup (fromKey ev) c with
          | false => rfl
          | true => exact absurd (inGroup_unique g (fromKey ev) c h h') hgfrom
        have hA : (rest.filter (fun c => !(inGroup (toKey ev) c) &&
            !(inGroup (fromKey ev) c))).filter (inGroup g) = rest.filter (inGroup g) := by
          apply filter_filter_of_imp
          intro c h
          rw [hgc c h, hgf c h]
          rfl
        have hMid : (renumberFrom 0 (splice fB ev.toIndex upd)).filter (inGroup g) = [] := by
          apply renumberFrom_filter_none (inGroup g) (fun c n => rfl)
          intro c hc
          cases h' : inGroup g c with
          | false => rfl
          | true =>
            have hto := hTI_to c hc
            rw [hgc c h'] at hto
            cases hto
        have hC : (renumberFrom 0 (rest.filter (inGroup (fromKey ev)))).filter
            (inGroup g) = [] := by
          apply renumberFrom_filter_none (inGroup g) (fun c n => rfl)
          intro c hc
          cases h' : inGroup g c with
          | false => rfl
          | true =>
            have := hgf c h'
            rw [List.of_mem_filter hc] at this
            cases this
        have hrestg : rest.filter (inGroup g) = cards.filter (inGroup g) := by
          apply removeFirst_filter_of_not (idP ev.card.id) (inGroup g) cards orig hfind
          cases h' : inGroup g orig with
          | false => rfl
          | true => exact absurd (inGroup_unique g (fromKey ev) orig h' horigGroup) hgfrom
        rw [hA, hMid, hC, List.append_nil, List.append_nil, hrestg]
        -- g is a group of the input collection
        have hgmem : g ∈ cards.map cardGroup := by
          obtain ⟨c, hcR, hcg⟩ := List.mem_map.mp hg
          have hcg' : inGroup g c = true := (cardGroup_inGroup_iff g c).mpr hcg
          have hcfilter : c ∈ cards.filter (inGroup g) := by
            have hcR' : c ∈ (rest.filter (fun c => !(inGroup (toKey ev) c) &&
                !(inGroup (fromKey ev) c))) ++ renumberFrom 0 (splice fB ev.toIndex upd) ++
                renumberFrom 0 (rest.filter (inGroup (fromKey ev))) := hcR
            rcases List.mem_append.mp hcR' with hc1 | hc3
            · rcases List.mem_append.mp hc1 with hc1a | hc2
              · rw [← hrestg]
                exact List.mem_filter.mpr ⟨List.mem_of_mem_filter hc1a, hcg'⟩
              · exfalso
                obtain ⟨c', hc', n, hn⟩ := mem_renumberFrom 0 _ hc2
                have hto : inGroup (toKey ev) c = true := by
                  rw [hn]
                  show inGroup (toKey ev) { c' with order := n } = true
                  exact (hTI_to c' hc' : inGroup (toKey ev) c' = true)
                rw [hgc c hcg'] at hto
                cases hto
            · exfalso
              obtain ⟨c', hc', n, hn⟩ := mem_renumberFrom 0 _ hc3
              have hfrom : inGroup (fromKey ev) c = true := by
                rw [hn]
                show inGroup (fromKey ev) { c' with order := n } = true
                exact (List.of_mem_filter hc' : inGroup (fromKey ev) c' = true)
              rw [hgf c hcg'] at hfrom
              cases hfrom
          exact List.mem_map.mpr ⟨c, List.mem_of_mem_filter hcfilter, hcg⟩
        have := hd g hgmem
        unfold groupCards at this
        exact this

/-- C1, amended: for every initial card collection satisfying the density
invariant and every sequence of `moveCard` / `moveColumn` calls in which
each card move is well formed — its subject id is either absent (a
defensive no-op) or names a card carrying the event's source group, and
the source group key differs from the target group key — the resulting
collection again has, in every group, order values forming exactly
`{0, ..., n-1}`.  The claim's highlighted case of a `moveCard` whose
source group equals its target group is precisely where the invariant
*breaks* (see the counterexample), so the amendment excludes it; the drop
pipeline never issues such calls. -/
theorem c1_amended (ops : List BoardOp) (cards : List Card) (cols : List Column)
    (hd : DenseOrders cards) (hwf : wfOps ops (cards, cols) = true) :
    DenseOrders (applyOps ops (cards, cols)).1 := by
  induction ops generalizing cards cols with
  | nil => exact hd
  | cons op ops ih =>
    unfold wfOps at hwf
    rw [Bool.and_eq_true] at hwf
    obtain ⟨hop, hops⟩ := hwf
    cases op with
    | cardMove ev =>
      unfold applyOps applyOp
      exact ih (moveCard ev cards) cols (moveCard_dense ev cards hd hop) hops
    | colMove ev =>
      unfold applyOps applyOp
      exact ih cards (moveColumn ev cols) hd hops

/-- C1, witness: a dense three-card board, a well-formed cross-column
move and a column move. -/
theorem c1_amended_witness :
    DenseOrders [⟨1, 1, JOpt.undef, 0, JOpt.undef⟩, ⟨2, 1, JOpt.undef, 1, JOpt.undef⟩,
      ⟨3, 2, JOpt.undef, 0, JOpt.undef⟩] ∧
    DenseOrders (applyOps
      [BoardOp.cardMove ⟨⟨1, 1, JOpt.undef, 0, JOpt.undef⟩, 1, 2, 0, 0, JOpt.undef, JOpt.undef⟩,
       BoardOp.colMove ⟨⟨2, 1, JOpt.undef, JOpt.undef, JOpt.undef⟩, 1, 0⟩]
      ([⟨1, 1, JOpt.undef, 0, JOpt.undef⟩, ⟨2, 1, JOpt.undef, 1, JOpt.undef⟩,
        ⟨3, 2, JOpt.undef, 0, JOpt.undef⟩],
       [⟨1, 0, JOpt.undef, JOpt.undef, JOpt.undef⟩,
        ⟨2, 1, JOpt.undef, JOpt.undef, JOpt.undef⟩])).1 :=
  ⟨by decide,
   c1_amended
    [BoardOp.cardMove ⟨⟨1, 1, JOpt.undef, 0, JOpt.undef⟩, 1, 2, 0, 0, JOpt.undef, JOpt.undef⟩,
     BoardOp.colMove ⟨⟨2, 1, JOpt.undef, JOpt.undef, JOpt.undef⟩, 1, 0⟩]
    [⟨1, 1, JOpt.undef, 0, JOpt.undef⟩, ⟨2, 1, JOpt.undef, 1, JOpt.undef⟩,
     ⟨3, 2, JOpt.undef, 0, JOpt.undef⟩]
    [⟨1, 0, JOpt.undef, JOpt.undef, JOpt.undef⟩,
     ⟨2, 1, JOpt.undef, JOpt.undef, JOpt.undef⟩]
    (by decide) (by decide)⟩

/-! ## Sorted-position lemmas for the no-op drop -/

/-- Length of the dense-order range. -/
theorem rangeFrom_length : ∀ (s n : Nat), (rangeFrom s n).length = n := by
  intro s n
  induction n generalizing s with
  | zero => rfl
  | succ n ih =>
    unfold rangeFrom
    simp [ih]

/-- Every entry of `rangeFrom s n` is at least `s`. -/
theorem rangeFrom_ge : ∀ (s n : Nat), ∀ m ∈ rangeFrom s n, s ≤ m := by
  intro s n
  induction n generalizing s with
  | zero =>
    intro m hm
    exact absurd hm (by simp [rangeFrom])
  | succ n ih =>
    intro m hm
    unfold rangeFrom at hm
    rcases List.mem_cons.mp hm with heq | hmem
    · omega
    · have := ih (s + 1) m hmem
      omega

/-- The dense-order range is sorted. -/
theorem rangeFrom_sorted : ∀ (s n : Nat), List.Sorted (fun a b => a ≤ b) (rangeFrom s n) := by
  intro s n
  induction n generalizing s with
  | zero => exact List.sorted_nil
  | succ n ih =>
    unfold rangeFrom
    refine List.sorted_cons.mpr ⟨?_, ih (s + 1)⟩
    intro m hm
    have := rangeFrom_ge (s + 1) n m hm
    omega

/-- The `j`-th entry of `rangeFrom s n` is `s + j`. -/
theorem rangeFrom_get?_inv : ∀ (n s j m : Nat), (rangeFrom s n).get? j = some m → m = s + j := by
  intro n
  induction n with
  | zero =>
    intro s j m h
    exact absurd h (by simp [rangeFrom])
  | succ n ih =>
    intro s j m h
    unfold rangeFrom at h
    cases j with
    | zero =>
      rw [List.get?_cons_zero] at h
      injection h with h
      omega
    | succ j' =>
      rw [List.get?_cons_succ] at h
      have := ih (s + 1) j' m h
      omega

/-- With duplicate-free ids, `find` by a member's id returns exactly that
member. -/
theorem findFirst_of_nodup_mem (card : Card) :
    ∀ l : List Card, (cardIds l).Nodup → card ∈ l →
      findFirst (idP card.id) l = some card := by
  intro l
  induction l with
  | nil =>
    intro _ hmem
    exact absurd hmem (by simp)
  | cons c cs ih =>
    intro hnd hmem
    unfold cardIds at hnd
    rw [List.map_cons, List.nodup_cons] at hnd
    obtain ⟨hcnotin, hndcs⟩ := hnd
    unfold findFirst
    rcases List.mem_cons.mp hmem with heq | hmem'
    · subst heq
      rw [if_pos (by simp [idP])]
    · have hne : c.id ≠ card.id := by
        intro h
        exact hcnotin (h ▸ List.mem_map.mpr ⟨card, hmem', rfl⟩)
      rw [if_neg (by simp [idP, hne])]
      exact ih hndcs hmem'

/-- With duplicate-free ids, `findIndex` by the id of the element at
position `j` returns `j`. -/
theorem findIndexD_of_nodup :
    ∀ (L : List Card) (j : Nat) (card : Card),
      ((cardIds L).Nodup) → L.get? j = some card →
      findIndexD (idP card.id) L = some j := by
  intro L
  induction L with
  | nil =>
    intro j card _ h
    exact Option.noConfusion h
  | cons c cs ih =>
    intro j card hnd hj
    unfold cardIds at hnd
    rw [List.map_cons, List.nodup_cons] at hnd
    obtain ⟨hcnotin, hndcs⟩ := hnd
    cases j with
    | zero =>
      rw [List.get?_cons_zero] at hj
      injection hj with hj
      subst hj
      unfold findIndexD
      rw [if_pos (by simp [idP])]
    | succ j' =>
      rw [List.get?_cons_succ] at hj
      have hmem : card ∈ cs := List.get?_mem hj
      have hne : c.id ≠ card.id := by
        intro h
        exact hcnotin (h ▸ List.mem_map.mpr ⟨card, hmem, rfl⟩)
      unfold findIndexD
      rw [if_neg (by simp [idP, hne]), ih j' card hndcs hj]
      rfl

/-- In a dense collection, sorting a group by `order` produces the orders
`0, ..., n-1` in sequence. -/
theorem sorted_group_map_order (cards : List Card) (g : GroupKey)
    (hdense : DenseOrders cards) (hgmem : g ∈ cards.map cardGroup) :
    (List.insertionSort cardLE (groupCards g cards)).map (fun c => c.order) =
      rangeFrom 0 (groupCards g cards).length := by
  have hperm : (List.insertionSort cardLE (groupCards g cards)).Perm (groupCards g cards) :=
    List.perm_insertionSort cardLE _
  have hmapperm := (hperm.map (fun c => c.order)).trans (hdense g hgmem)
  have hsorted : List.Sorted cardLE (List.insertionSort cardLE (groupCards g cards)) :=
    List.sorted_insertionSort cardLE _
  have hsorted2 : List.Sorted (fun a b => a ≤ b)
      ((List.insertionSort cardLE (groupCards g cards)).map (fun c => c.order)) :=
    List.pairwise_map.mpr hsorted
  exact List.eq_of_perm_of_sorted hmapperm hsorted2
    (rangeFrom_sorted 0 (groupCards g cards).length)

/-- `get?` commutes with `map`. -/
theorem map_get?_comm {α β : Type} (f : α → β) :
    ∀ (l : List α) (n : Nat), (l.map f).get? n = (l.get? n).map f := by
  intro l
  induction l with
  | nil =>
    intro n
    rfl
  | cons c cs ih =>
    intro n
    cases n with
    | zero => rfl
    | succ n' =>
      rw [List.map_cons, List.get?_cons_succ, List.get?_cons_succ, ih]

/-- In a dense collection with duplicate-free ids, a card's position in
its sorted group listing is exactly its `order`. -/
theorem findIndexD_sorted_group (cards : List Card) (card : Card)
    (hdense : DenseOrders cards) (hnodup : (cardIds cards).Nodup)
    (hmem : card ∈ cards) :
    findIndexD (idP card.id)
        (List.insertionSort cardLE (groupCards (cardGroup card) cards)) =
      some card.order := by
  have hgmem : cardGroup card ∈ cards.map cardGroup := List.mem_map.mpr ⟨card, hmem, rfl⟩
  have hmapeq := sorted_group_map_order cards (cardGroup card) hdense hgmem
  have hperm : (List.insertionSort cardLE (groupCards (cardGroup card) cards)).Perm
      (groupCards (cardGroup card) cards) := List.perm_insertionSort cardLE _
  have hcardL : card ∈ List.insertionSort cardLE (groupCards (cardGroup card) cards) := by
    rw [List.mem_insertionSort]
    exact List.mem_filter.mpr ⟨hmem, (cardGroup_inGroup_iff (cardGroup card) card).mpr rfl⟩
  obtain ⟨j, hj⟩ := List.get?_of_mem hcardL
  have horder : card.order = j := by
    have h1 : ((List.insertionSort cardLE (groupCards (cardGroup card) cards)).map
        (fun c => c.order)).get? j = some card.order := by
      rw [map_get?_comm, hj]
      rfl
    rw [hmapeq] at h1
    have := rangeFrom_get?_inv (groupCards (cardGroup card) cards).length 0 j card.order h1
    omega
  have hnodupL : (cardIds (List.insertionSort cardLE
      (groupCards (cardGroup card) cards))).Nodup := by
    unfold cardIds
    have hsub : List.Sublist ((groupCards (cardGroup card) cards).map (fun c => c.id))
        (cards.map (fun c => c.id)) := (List.filter_sublist cards).map (fun c => c.id)
    exact ((hperm.map (fun c => c.id)).symm).nodup (List.Nodup.sublist hsub hnodup)
  rw [horder]
  exact findIndexD_of_nodup _ j card hnodupL hj

/-- C4, amended: dropping a card onto its own current group at its own
current index is a committed no-op — collections unchanged, no `move` and
no `board-change` event, only `drag-start` and `drag-end {success: true}`
— *provided* the card's `swimlaneId` is a present truthy value matching
the drop zone's swimlane parameter (and the board is dense with
duplicate-free ids, so the drop handler's computed index is the card's
`order`).  For a card with `undefined` swimlaneId dropped on its own
column, the recorded source swimlane is `null`, the strict comparison
fails, and the drop is treated as a cross-group move that emits
`card-moved` and `board-change` events (see the counterexample). -/
theorem c4_amended (cfg : Config) (cards : List Card) (cols : List Column)
    (swls : List Swimlane) (card : Card) (k : Nat)
    (hen : isDragEnabled cfg = true) (hdr : card.draggable ≠ JOpt.val false)
    (hid : card.id ≠ 0) (hcol0 : card.columnId ≠ 0)
    (hsw : card.swimlaneId = JOpt.val k) (hk : k ≠ 0)
    (hmem : card ∈ cards) (hnodup : (cardIds cards).Nodup)
    (hdense : DenseOrders cards) :
    handleDrop cfg card.columnId (JOpt.val k)
        (startCardDrag cfg card ⟨cards, cols, swls, idleDrag, []⟩) =
      ⟨cards, cols, swls, idleDrag,
        [Emitted.dragStart DragKind.card card.id, Emitted.dragEnd DragKind.card card.id true]⟩ := by
  rw [startCardDrag_active cfg card ⟨cards, cols, swls, idleDrag, []⟩ hen hdr]
  unfold handleDrop
  have hfind : findFirst (idP card.id) cards = some card :=
    findFirst_of_nodup_mem card cards hnodup hmem
  have hOrNull : jOrNull card.swimlaneId = JOpt.val k := by
    rw [hsw]
    unfold jOrNull jTruthy
    simp [hk]
  have hcolproj : getCardsForColumn card.columnId (JOpt.val k) cards =
      List.insertionSort cardLE (groupCards (cardGroup card) cards) := by
    unfold getCardsForColumn groupCards
    congr 1
    apply List.filter_congr
    intro c _
    simp [inGroup, cardGroup, hsw, Bool.decide_and]
  have hfidx : findIndexD (idP card.id)
      (getCardsForColumn card.columnId (JOpt.val k) cards) = some card.order := by
    rw [hcolproj]
    exact findIndexD_sorted_group cards card hdense hnodup hmem
  simp [hen, jTruthy, jVal, hid, hcol0, hfind, hOrNull, hfidx, resetDrag]

/-- C4, witness: a dense two-card swimlane group; dropping the second card
on its own column and swimlane changes nothing and emits only
`drag-start` and a successful `drag-end`. -/
theorem c4_amended_witness :
    handleDrop cfgDefault 1 (JOpt.val 7)
        (startCardDrag cfgDefault (⟨2, 1, JOpt.val 7, 1, JOpt.undef⟩ : Card)
          ⟨[⟨1, 1, JOpt.val 7, 0, JOpt.undef⟩, ⟨2, 1, JOpt.val 7, 1, JOpt.undef⟩], [], [],
            idleDrag, []⟩) =
      ⟨[⟨1, 1, JOpt.val 7, 0, JOpt.undef⟩, ⟨2, 1, JOpt.val 7, 1, JOpt.undef⟩], [], [], idleDrag,
        [Emitted.dragStart DragKind.card 2, Emitted.dragEnd DragKind.card 2 true]⟩ :=
  c4_amended cfgDefault
    [⟨1, 1, JOpt.val 7, 0, JOpt.undef⟩, ⟨2, 1, JOpt.val 7, 1, JOpt.undef⟩] [] []
    ⟨2, 1, JOpt.val 7, 1, JOpt.undef⟩ 7
    (by decide) (by decide) (by decide) (by decide) (by decide) (by decide)
    (by decide) (by decide) (by decide)
